import Mathlib

/-!
Verification of the queue-service layer (`queueservice.js`) of the
taskcluster repository: the wrapper around azure queue storage managing
pending-task queues, the claim/deadline/resolved expiration queues, queue
metadata, and the in-memory `FakeQueueClient` test double.

Modelling conventions:
* JavaScript `Date` values are modelled as `Int` milliseconds since epoch;
  `Date.prototype.toJSON` / `new Date(ms)` are collapsed to the identity on
  this representation, and an invalid date is `Option.none`.
* JSON payloads are modelled by the inductive `Json` below, with numbers
  restricted to integers (every number the service ever serializes is an
  integer, and float formatting is out of scope for a shallow embedding).
* The base64 / JSON / UTF-8 message codec (`Buffer.from(JSON.stringify(m))
  .toString(base64)` and its inverse) is implemented executably below and
  proved to round-trip.
* `slugid.v4()` fresh-token generation is modelled by a counter threaded
  through the fake-client state.
-/

/-! ## Time helpers (queueservice.js lines 10-19) -/

/-- `Math.ceil(a / 1000)` on integer millisecond deltas.  Lean `Int`
division by a positive literal is floor division, so the ceiling is the
negated floor of the negation. -/
def ceilDiv1000 (a : Int) : Int := -((-a) / 1000)

/-- `secondsTo(target, relativeTo)`: seconds until `target`, rounded up,
and always at least one second (source comment: to avoid races in tests
where everything happens in a matter of milliseconds). -/
def secondsTo (target relativeTo : Int) : Int :=
  max (ceilDiv1000 (target - relativeTo)) 1

/-! ## UTF-8 byte codec

`Buffer.from(string)` encodes the JS string as UTF-8 bytes and
`buffer.toString()` decodes them; both are modelled here over
`List Char` / `List Nat` (each `Nat` a byte value below 256). -/

def utf8EncodeChar (c : Char) : List Nat :=
  if c.toNat < 128 then [c.toNat]
  else if c.toNat < 2048 then [192 + c.toNat / 64, 128 + c.toNat % 64]
  else if c.toNat < 65536 then
    [224 + c.toNat / 4096, 128 + c.toNat / 64 % 64, 128 + c.toNat % 64]
  else
    [240 + c.toNat / 262144, 128 + c.toNat / 4096 % 64, 128 + c.toNat / 64 % 64,
      128 + c.toNat % 64]

def utf8Encode : List Char → List Nat
  | [] => []
  | c :: cs => utf8EncodeChar c ++ utf8Encode cs

def utf8DecodeChar : List Nat → Option (Char × List Nat)
  | [] => none
  | b0 :: bs =>
    if b0 < 128 then some (Char.ofNat b0, bs)
    else if b0 < 192 then none
    else if b0 < 224 then
      match bs with
      | b1 :: bs2 => some (Char.ofNat ((b0 - 192) * 64 + (b1 - 128)), bs2)
      | [] => none
    else if b0 < 240 then
      match bs with
      | b1 :: b2 :: bs2 =>
        some (Char.ofNat ((b0 - 224) * 4096 + (b1 - 128) * 64 + (b2 - 128)), bs2)
      | _ => none
    else
      match bs with
      | b1 :: b2 :: b3 :: bs2 =>
        some (Char.ofNat ((b0 - 240) * 262144 + (b1 - 128) * 4096 +
          (b2 - 128) * 64 + (b3 - 128)), bs2)
      | _ => none

def utf8DecodeAux : Nat → List Nat → Option (List Char)
  | _, [] => some []
  | 0, _ :: _ => none
  | fuel + 1, b :: bs =>
    match utf8DecodeChar (b :: bs) with
    | none => none
    | some (c, rest) => (utf8DecodeAux fuel rest).map (fun cs => c :: cs)

def utf8Decode (bs : List Nat) : Option (List Char) := utf8DecodeAux bs.length bs

/-- A `Char`'s code point is below 0x110000. -/
theorem char_toNat_lt (c : Char) : c.toNat < 1114112 := by
  rcases c.valid with h | ⟨_, h2⟩
  · exact Nat.lt_trans h (by norm_num)
  · exact h2

/-- Decoding the encoding of one character recovers it together with the
unconsumed tail. -/
theorem utf8DecodeChar_encode (c : Char) (rest : List Nat) :
    utf8DecodeChar (utf8EncodeChar c ++ rest) = some (c, rest) := by
  have hlt := char_toNat_lt c
  have hofNat := Char.ofNat_toNat c
  unfold utf8EncodeChar
  by_cases h1 : c.toNat < 128
  · simp only [if_pos h1, List.cons_append, List.nil_append, utf8DecodeChar, if_pos h1, hofNat]
  · by_cases h2 : c.toNat < 2048
    · simp only [if_neg h1, if_pos h2, List.cons_append, List.nil_append, utf8DecodeChar]
      rw [if_neg (by omega), if_neg (by omega), if_pos (by omega)]
      have hv : (192 + c.toNat / 64 - 192) * 64 + (128 + c.toNat % 64 - 128) = c.toNat := by
        omega
      rw [hv, hofNat]
    · by_cases h3 : c.toNat < 65536
      · simp only [if_neg h1, if_neg h2, if_pos h3, List.cons_append, List.nil_append,
          utf8DecodeChar]
        rw [if_neg (by omega), if_neg (by omega), if_neg (by omega)]
        have hb0 : 224 + c.toNat / 4096 < 240 := by omega
        rw [if_pos hb0]
        have hv : (224 + c.toNat / 4096 - 224) * 4096 + (128 + c.toNat / 64 % 64 - 128) * 64 +
            (128 + c.toNat % 64 - 128) = c.toNat := by omega
        rw [hv, hofNat]
      · simp only [if_neg h1, if_neg h2, if_neg h3, List.cons_append, List.nil_append,
          utf8DecodeChar]
        rw [if_neg (by omega), if_neg (by omega), if_neg (by omega), if_neg (by omega)]
        have hv : (240 + c.toNat / 262144 - 240) * 262144 + (128 + c.toNat / 4096 % 64 - 128) *
            4096 + (128 + c.toNat / 64 % 64 - 128) * 64 + (128 + c.toNat % 64 - 128) =
            c.toNat := by omega
        rw [hv, hofNat]

theorem utf8EncodeChar_ne_nil (c : Char) : utf8EncodeChar c ≠ [] := by
  unfold utf8EncodeChar
  split_ifs <;> simp

theorem utf8EncodeChar_len_pos (c : Char) : 1 ≤ (utf8EncodeChar c).length := by
  cases h : utf8EncodeChar c with
  | nil => exact absurd h (utf8EncodeChar_ne_nil c)
  | cons a l => simp

theorem utf8DecodeAux_encode (cs : List Char) :
    ∀ (fuel : Nat), (utf8Encode cs).length ≤ fuel →
      utf8DecodeAux fuel (utf8Encode cs) = some cs := by
  induction cs with
  | nil => intro fuel _; simp [utf8Encode, utf8DecodeAux]
  | cons c cs ih =>
    intro fuel hfuel
    have hne : utf8Encode (c :: cs) ≠ [] := by
      simp only [utf8Encode]
      intro hc
      exact utf8EncodeChar_ne_nil c (List.append_eq_nil.mp hc).1
    have hlen : 1 ≤ (utf8Encode (c :: cs)).length := by
      cases h : utf8Encode (c :: cs) with
      | nil => exact absurd h hne
      | cons a l => simp
    match fuel, hfuel with
    | 0, hfuel => omega
    | fuel + 1, hfuel =>
      cases hE : utf8Encode (c :: cs) with
      | nil => exact absurd hE hne
      | cons b bs =>
        simp only [utf8DecodeAux]
        have hE2 : b :: bs = utf8EncodeChar c ++ utf8Encode cs := by
          rw [← hE]; simp [utf8Encode]
        rw [hE2, utf8DecodeChar_encode c (utf8Encode cs)]
        have htail : (utf8Encode cs).length ≤ fuel := by
          have h1 : (utf8Encode (c :: cs)).length =
              (utf8EncodeChar c).length + (utf8Encode cs).length := by
            simp [utf8Encode]
          have h2 := utf8EncodeChar_len_pos c
          omega
        dsimp only
        rw [ih fuel htail]
        rfl

/-- UTF-8 round-trip: decoding the encoding of a character list recovers it. -/
theorem utf8Decode_encode (cs : List Char) : utf8Decode (utf8Encode cs) = some cs :=
  utf8DecodeAux_encode cs (utf8Encode cs).length (Nat.le_refl _)

/-- Every byte produced by the UTF-8 encoder is below 256. -/
theorem utf8EncodeChar_lt_256 (c : Char) : ∀ b ∈ utf8EncodeChar c, b < 256 := by
  have hlt := char_toNat_lt c
  unfold utf8EncodeChar
  split_ifs with h1 h2 h3 <;> intro b hb <;>
    simp only [List.mem_cons, List.not_mem_nil, or_false] at hb
  · omega
  · rcases hb with rfl | rfl <;> omega
  · rcases hb with rfl | rfl | rfl <;> omega
  · rcases hb with rfl | rfl | rfl | rfl <;> omega

theorem utf8Encode_lt_256 (cs : List Char) : ∀ b ∈ utf8Encode cs, b < 256 := by
  induction cs with
  | nil => simp [utf8Encode]
  | cons c cs ih =>
    intro b hb
    simp only [utf8Encode, List.mem_append] at hb
    rcases hb with hb | hb
    · exact utf8EncodeChar_lt_256 c b hb
    · exact ih b hb

/-! ## Base64 codec

`buffer.toString(base64)` / `Buffer.from(text, base64)` over byte lists
(standard alphabet with `=` padding, as produced by node). -/

def b64Char (v : Nat) : Char :=
  if v < 26 then Char.ofNat (65 + v)
  else if v < 52 then Char.ofNat (97 + (v - 26))
  else if v < 62 then Char.ofNat (48 + (v - 52))
  else if v = 62 then Char.ofNat 43
  else Char.ofNat 47

def b64Val (c : Char) : Option Nat :=
  if 65 ≤ c.toNat ∧ c.toNat ≤ 90 then some (c.toNat - 65)
  else if 97 ≤ c.toNat ∧ c.toNat ≤ 122 then some (c.toNat - 97 + 26)
  else if 48 ≤ c.toNat ∧ c.toNat ≤ 57 then some (c.toNat - 48 + 52)
  else if c.toNat = 43 then some 62
  else if c.toNat = 47 then some 63
  else none

def b64Pad : Char := Char.ofNat 61

def base64Encode : List Nat → List Char
  | [] => []
  | [a] => [b64Char (a / 4), b64Char (a % 4 * 16), b64Pad, b64Pad]
  | [a, b] => [b64Char (a / 4), b64Char (a % 4 * 16 + b / 16), b64Char (b % 16 * 4), b64Pad]
  | a :: b :: c :: rest =>
    b64Char (a / 4) :: b64Char (a % 4 * 16 + b / 16) :: b64Char (b % 16 * 4 + c / 64) ::
      b64Char (c % 64) :: base64Encode rest

def base64Decode : List Char → Option (List Nat)
  | [] => some []
  | c1 :: c2 :: c3 :: c4 :: rest =>
    match b64Val c1, b64Val c2 with
    | some v1, some v2 =>
      if c3 = b64Pad then
        if c4 = b64Pad ∧ rest = [] then some [v1 * 4 + v2 / 16] else none
      else
        match b64Val c3 with
        | some v3 =>
          if c4 = b64Pad then
            if rest = [] then some [v1 * 4 + v2 / 16, v2 % 16 * 16 + v3 / 4] else none
          else
            match b64Val c4, base64Decode rest with
            | some v4, some tail =>
              some ((v1 * 4 + v2 / 16) :: (v2 % 16 * 16 + v3 / 4) :: (v3 % 4 * 64 + v4) :: tail)
            | _, _ => none
        | none => none
    | _, _ => none
  | _ => none

theorem b64Val_b64Char : ∀ v : Nat, v < 64 → b64Val (b64Char v) = some v := by decide

theorem b64Char_ne_pad : ∀ v : Nat, v < 64 → b64Char v ≠ b64Pad := by decide

/-- Base64 round-trip on byte lists (every byte below 256). -/
theorem base64Decode_encode (bs : List Nat) (hb : ∀ b ∈ bs, b < 256) :
    base64Decode (base64Encode bs) = some bs := by
  induction bs using base64Encode.induct with
  | case1 => rfl
  | case2 a =>
    have ha : a < 256 := hb a (by simp)
    simp only [base64Encode, base64Decode]
    rw [b64Val_b64Char (a / 4) (by omega), b64Val_b64Char (a % 4 * 16) (by omega)]
    simp only [if_pos rfl, and_self, if_pos]
    have hv : a / 4 * 4 + a % 4 * 16 / 16 = a := by omega
    rw [hv]
  | case3 a b =>
    have ha : a < 256 := hb a (by simp)
    have hbb : b < 256 := hb b (by simp)
    simp only [base64Encode, base64Decode]
    rw [b64Val_b64Char (a / 4) (by omega), b64Val_b64Char (a % 4 * 16 + b / 16) (by omega)]
    dsimp only
    rw [if_neg (b64Char_ne_pad (b % 16 * 4) (by omega))]
    rw [b64Val_b64Char (b % 16 * 4) (by omega)]
    dsimp only
    have hv1 : a / 4 * 4 + (a % 4 * 16 + b / 16) / 16 = a := by omega
    have hv2 : (a % 4 * 16 + b / 16) % 16 * 16 + b % 16 * 4 / 4 = b := by omega
    simp [hv1, hv2]
    omega
  | case4 a b c rest ih =>
    have ha : a < 256 := hb a (by simp)
    have hbb : b < 256 := hb b (by simp)
    have hc : c < 256 := hb c (by simp)
    have hrest : ∀ x ∈ rest, x < 256 := fun x hx => hb x (by simp [hx])
    simp only [base64Encode, base64Decode]
    rw [b64Val_b64Char (a / 4) (by omega), b64Val_b64Char (a % 4 * 16 + b / 16) (by omega)]
    dsimp only
    rw [if_neg (b64Char_ne_pad (b % 16 * 4 + c / 64) (by omega))]
    rw [b64Val_b64Char (b % 16 * 4 + c / 64) (by omega)]
    dsimp only
    rw [if_neg (b64Char_ne_pad (c % 64) (by omega))]
    rw [b64Val_b64Char (c % 64) (by omega), ih hrest]
    dsimp only
    have hv1 : a / 4 * 4 + (a % 4 * 16 + b / 16) / 16 = a := by omega
    have hv2 : (a % 4 * 16 + b / 16) % 16 * 16 + (b % 16 * 4 + c / 64) / 4 = b := by omega
    have hv3 : (b % 16 * 4 + c / 64) % 4 * 64 + c % 64 = c := by omega
    rw [hv1, hv2, hv3]

/-! ## JSON values

Model of the JSON documents `JSON.stringify` / `JSON.parse` exchange.
Numbers are restricted to integers (see the header note). -/

inductive Json where
  | null
  | boolV (b : Bool)
  | num (n : Int)
  | str (s : String)
  | arr (xs : List Json)
  | obj (kvs : List (String × Json))

/-- Look up a key in a JSON object (JS property access on a parsed
message, `undefined` when absent or not an object). -/
def Json.get : Json → String → Option Json
  | .obj kvs, k => kvs.lookup k
  | _, _ => none

def quoteChar : Char := Char.ofNat 34

def bslashChar : Char := Char.ofNat 92

def lbraceChar : Char := Char.ofNat 123

def rbraceChar : Char := Char.ofNat 125

def lbrackChar : Char := Char.ofNat 91

def rbrackChar : Char := Char.ofNat 93

def commaChar : Char := Char.ofNat 44

def colonChar : Char := Char.ofNat 58

def minusChar : Char := Char.ofNat 45

def uChar : Char := Char.ofNat 117

def fwdSlashChar : Char := Char.ofNat 47

def isDigitCh (c : Char) : Bool := 48 ≤ c.toNat && c.toNat ≤ 57

def digitCh (n : Nat) : Char := Char.ofNat (48 + n)

def hexDigitCh (m : Nat) : Char :=
  if m < 10 then Char.ofNat (48 + m) else Char.ofNat (87 + m)

def hexVal (c : Char) : Option Nat :=
  if 48 ≤ c.toNat ∧ c.toNat ≤ 57 then some (c.toNat - 48)
  else if 97 ≤ c.toNat ∧ c.toNat ≤ 102 then some (c.toNat - 87)
  else if 65 ≤ c.toNat ∧ c.toNat ≤ 70 then some (c.toNat - 55)
  else none

/-- Fuel-indexed digit printer: the fuel bounds the number of divisions
by ten, so the recursion is structural and kernel-computable. -/
def natToCharsGo : Nat → Nat → List Char
  | 0, _ => []
  | fuel + 1, n =>
    if n < 10 then [digitCh n]
    else natToCharsGo fuel (n / 10) ++ [digitCh (n % 10)]

/-- Decimal digits of a natural number, most significant first. -/
def natToChars (n : Nat) : List Char := natToCharsGo (n + 1) n

theorem natToCharsGo_congr (n : Nat) : ∀ f1 f2 : Nat, n < f1 → n < f2 →
    natToCharsGo f1 n = natToCharsGo f2 n := by
  induction n using Nat.strong_induction_on with
  | _ n ih =>
    intro f1 f2 h1 h2
    match f1, f2 with
    | g1 + 1, g2 + 1 =>
      show (if n < 10 then [digitCh n] else natToCharsGo g1 (n / 10) ++ [digitCh (n % 10)]) =
        (if n < 10 then [digitCh n] else natToCharsGo g2 (n / 10) ++ [digitCh (n % 10)])
      split_ifs with h
      · rfl
      · rw [ih (n / 10) (by omega) g1 g2 (by omega) (by omega)]

/-- The defining recursion of `natToChars`, recovered from the fuel version. -/
theorem natToChars_eq (n : Nat) :
    natToChars n = if n < 10 then [digitCh n]
      else natToChars (n / 10) ++ [digitCh (n % 10)] := by
  show (if n < 10 then [digitCh n] else natToCharsGo n (n / 10) ++ [digitCh (n % 10)]) = _
  split_ifs with h
  · rfl
  · rw [natToCharsGo_congr (n / 10) n (n / 10 + 1) (by omega) (by omega)]
    rfl

/-- Decimal rendering of an integer, as `JSON.stringify` prints an
integer-valued number. -/
def intToChars (n : Int) : List Char :=
  if n < 0 then minusChar :: natToChars n.natAbs else natToChars n.natAbs

/-- `JSON.stringify` escaping of a single string character. -/
def escChar (c : Char) : List Char :=
  if c = quoteChar then [bslashChar, quoteChar]
  else if c = bslashChar then [bslashChar, bslashChar]
  else if c.toNat = 8 then [bslashChar, 'b']
  else if c.toNat = 9 then [bslashChar, 't']
  else if c.toNat = 10 then [bslashChar, 'n']
  else if c.toNat = 12 then [bslashChar, 'f']
  else if c.toNat = 13 then [bslashChar, 'r']
  else if c.toNat < 32 then
    [bslashChar, uChar, digitCh 0, digitCh 0, hexDigitCh (c.toNat / 16), hexDigitCh (c.toNat % 16)]
  else [c]

def escStr : List Char → List Char
  | [] => []
  | c :: cs => escChar c ++ escStr cs

mutual

def stringifyJson : Json → List Char
  | .null => [ 'n', 'u', 'l', 'l' ]
  | .boolV true => [ 't', 'r', 'u', 'e' ]
  | .boolV false => [ 'f', 'a', 'l', 's', 'e' ]
  | .num n => intToChars n
  | .str s => quoteChar :: (escStr s.data ++ [quoteChar])
  | .arr xs =>
    lbrackChar ::
      ((match xs with
        | [] => []
        | x :: xs2 => stringifyJson x ++ sepElems xs2) ++ [rbrackChar])
  | .obj kvs =>
    lbraceChar ::
      ((match kvs with
        | [] => []
        | (k, v) :: kvs2 =>
          (quoteChar :: (escStr k.data ++ [quoteChar, colonChar]) ++ stringifyJson v) ++
            sepMembers kvs2) ++ [rbraceChar])
termination_by structural j => j

def sepElems : List Json → List Char
  | [] => []
  | x :: xs => commaChar :: (stringifyJson x ++ sepElems xs)
termination_by structural l => l

def sepMembers : List (String × Json) → List Char
  | [] => []
  | (k, v) :: kvs =>
    commaChar ::
      ((quoteChar :: (escStr k.data ++ [quoteChar, colonChar]) ++ stringifyJson v) ++
        sepMembers kvs)
termination_by structural l => l

end

/-- Serialisation of one object member, `"key":value`, as inlined in the mutual block. -/
def stringifyMember : String × Json → List Char
  | (k, v) => quoteChar :: (escStr k.data ++ [quoteChar, colonChar]) ++ stringifyJson v

/-- Maximal-munch decimal digit parser with accumulator. -/
def parseDigits : List Char → Nat → Nat × List Char
  | c :: cs, acc =>
    if isDigitCh c then parseDigits cs (acc * 10 + (c.toNat - 48)) else (acc, c :: cs)
  | [], acc => (acc, [])

def parseNum : List Char → Option (Nat × List Char)
  | c :: cs =>
    if isDigitCh c then some (parseDigits (c :: cs) 0) else none
  | [] => none

/-- Parser for the body of a JSON string literal, after the opening
quote; returns the unescaped contents and the input after the closing
quote. -/
def parseStrBody : Nat → List Char → Option (List Char × List Char)
  | 0, _ => none
  | _ + 1, [] => none
  | fuel + 1, c :: cs =>
    if c = quoteChar then some ([], cs)
    else if c = bslashChar then
      match cs with
      | [] => none
      | e :: cs2 =>
        if e = quoteChar then (parseStrBody fuel cs2).map (fun p => (quoteChar :: p.1, p.2))
        else if e = bslashChar then (parseStrBody fuel cs2).map (fun p => (bslashChar :: p.1, p.2))
        else if e = fwdSlashChar then
          (parseStrBody fuel cs2).map (fun p => (fwdSlashChar :: p.1, p.2))
        else if e = 'b' then (parseStrBody fuel cs2).map (fun p => (Char.ofNat 8 :: p.1, p.2))
        else if e = 't' then (parseStrBody fuel cs2).map (fun p => (Char.ofNat 9 :: p.1, p.2))
        else if e = 'n' then (parseStrBody fuel cs2).map (fun p => (Char.ofNat 10 :: p.1, p.2))
        else if e = 'f' then (parseStrBody fuel cs2).map (fun p => (Char.ofNat 12 :: p.1, p.2))
        else if e = 'r' then (parseStrBody fuel cs2).map (fun p => (Char.ofNat 13 :: p.1, p.2))
        else if e = uChar then
          match cs2 with
          | h1 :: h2 :: h3 :: h4 :: cs3 =>
            match hexVal h1, hexVal h2, hexVal h3, hexVal h4 with
            | some v1, some v2, some v3, some v4 =>
              (parseStrBody fuel cs3).map
                (fun p => (Char.ofNat (v1 * 4096 + v2 * 256 + v3 * 16 + v4) :: p.1, p.2))
            | _, _, _, _ => none
          | _ => none
        else none
    else (parseStrBody fuel cs).map (fun p => (c :: p.1, p.2))

mutual

def parseVal : Nat → List Char → Option (Json × List Char)
  | 0, _ => none
  | fuel + 1, cs =>
    match cs with
    | [] => none
    | c :: cs2 =>
      if c = quoteChar then
        match parseStrBody (cs2.length + 1) cs2 with
        | some (sc, rest) => some (.str (String.mk sc), rest)
        | none => none
      else if c = 't' then
        match cs2 with
        | 'r' :: 'u' :: 'e' :: rest => some (.boolV true, rest)
        | _ => none
      else if c = 'f' then
        match cs2 with
        | 'a' :: 'l' :: 's' :: 'e' :: rest => some (.boolV false, rest)
        | _ => none
      else if c = 'n' then
        match cs2 with
        | 'u' :: 'l' :: 'l' :: rest => some (.null, rest)
        | _ => none
      else if c = lbrackChar then
        match cs2 with
        | [] => none
        | d :: ds =>
          if d = rbrackChar then some (.arr [], ds)
          else
            match parseVal fuel (d :: ds) with
            | some (x, rest) =>
              match parseElemsTail fuel rest with
              | some (xs, rest2) => some (.arr (x :: xs), rest2)
              | none => none
            | none => none
      else if c = lbraceChar then
        match cs2 with
        | [] => none
        | d :: ds =>
          if d = rbraceChar then some (.obj [], ds)
          else
            match parseMemberP fuel (d :: ds) with
            | some (kv, rest) =>
              match parseMembersTail fuel rest with
              | some (kvs, rest2) => some (.obj (kv :: kvs), rest2)
              | none => none
            | none => none
      else if c = minusChar then
        match parseNum cs2 with
        | some (n, rest) => some (.num (-(n : Int)), rest)
        | none => none
      else if isDigitCh c then
        match parseNum (c :: cs2) with
        | some (n, rest) => some (.num (n : Int), rest)
        | none => none
      else none

def parseElemsTail : Nat → List Char → Option (List Json × List Char)
  | 0, _ => none
  | fuel + 1, cs =>
    match cs with
    | [] => none
    | c :: cs2 =>
      if c = rbrackChar then some ([], cs2)
      else if c = commaChar then
        match parseVal fuel cs2 with
        | some (x, rest) =>
          match parseElemsTail fuel rest with
          | some (xs, rest2) => some (x :: xs, rest2)
          | none => none
        | none => none
      else none

def parseMemberP : Nat → List Char → Option ((String × Json) × List Char)
  | 0, _ => none
  | fuel + 1, cs =>
    match cs with
    | [] => none
    | c :: cs2 =>
      if c = quoteChar then
        match parseStrBody (cs2.length + 1) cs2 with
        | some (k, rest) =>
          match rest with
          | [] => none
          | d :: rest2 =>
            if d = colonChar then
              match parseVal fuel rest2 with
              | some (v, rest3) => some ((String.mk k, v), rest3)
              | none => none
            else none
        | none => none
      else none

def parseMembersTail : Nat → List Char → Option (List (String × Json) × List Char)
  | 0, _ => none
  | fuel + 1, cs =>
    match cs with
    | [] => none
    | c :: cs2 =>
      if c = rbraceChar then some ([], cs2)
      else if c = commaChar then
        match parseMemberP fuel cs2 with
        | some (kv, rest) =>
          match parseMembersTail fuel rest with
          | some (kvs, rest2) => some (kv :: kvs, rest2)
          | none => none
        | none => none
      else none

end

/-- `JSON.parse`: parse a whole document (the parser accepts exactly the
whitespace-free documents `JSON.stringify` emits, which is all the
service ever feeds it). -/
def jsonParse (cs : List Char) : Option Json :=
  match parseVal (cs.length + 1) cs with
  | some (j, []) => some j
  | _ => none

/-- `Buffer.from(JSON.stringify(m)).toString(base64)` (lines 138-144). -/
def encodeMessageText (m : Json) : List Char :=
  base64Encode (utf8Encode (stringifyJson m))

/-- `JSON.parse(Buffer.from(text, base64))` (line 153). -/
def decodeMessageText (text : List Char) : Option Json :=
  match base64Decode text with
  | none => none
  | some bytes =>
    match utf8Decode bytes with
    | none => none
    | some cs => jsonParse cs

/-! ## JSON round-trip: digits -/

theorem toNat_ofNat_small (m : Nat) (h : m < 55296) : (Char.ofNat m).toNat = m := by
  have hv : Nat.isValidChar m := Or.inl h
  unfold Char.ofNat
  rw [dif_pos hv]
  rfl

theorem digitCh_toNat (n : Nat) (h : n < 10) : (digitCh n).toNat = 48 + n :=
  toNat_ofNat_small (48 + n) (by omega)

theorem isDigitCh_digitCh (n : Nat) (h : n < 10) : isDigitCh (digitCh n) = true := by
  simp only [isDigitCh, digitCh_toNat n h, Bool.and_eq_true, decide_eq_true_eq]
  omega

theorem natToChars_ne_nil (n : Nat) : natToChars n ≠ [] := by
  rw [natToChars_eq]
  split_ifs <;> simp

theorem natToChars_digits (n : Nat) : ∀ c ∈ natToChars n, isDigitCh c = true := by
  induction n using Nat.strong_induction_on with
  | _ n ih =>
    by_cases h : n < 10
    · rw [natToChars_eq, if_pos h]
      intro c hc
      simp only [List.mem_singleton] at hc
      subst hc
      exact isDigitCh_digitCh n h
    · rw [natToChars_eq, if_neg h]
      intro c hc
      rcases List.mem_append.mp hc with hc | hc
      · exact ih (n / 10) (by omega) c hc
      · simp only [List.mem_singleton] at hc
        subst hc
        exact isDigitCh_digitCh (n % 10) (by omega)

def digitsAcc : Nat → List Char → Nat
  | acc, [] => acc
  | acc, c :: cs => digitsAcc (acc * 10 + (c.toNat - 48)) cs

theorem digitsAcc_append (xs ys : List Char) :
    ∀ acc, digitsAcc acc (xs ++ ys) = digitsAcc (digitsAcc acc xs) ys := by
  induction xs with
  | nil => intro acc; rfl
  | cons c cs ih =>
    intro acc
    rw [List.cons_append]
    have h1 : digitsAcc acc (c :: (cs ++ ys)) =
        digitsAcc (acc * 10 + (c.toNat - 48)) (cs ++ ys) := rfl
    have h2 : digitsAcc acc (c :: cs) = digitsAcc (acc * 10 + (c.toNat - 48)) cs := rfl
    rw [h1, h2]
    exact ih _

theorem digitsAcc_natToChars (n : Nat) :
    ∀ acc, digitsAcc acc (natToChars n) = acc * 10 ^ (natToChars n).length + n := by
  induction n using Nat.strong_induction_on with
  | _ n ih =>
    by_cases h : n < 10
    · intro acc
      rw [natToChars_eq, if_pos h]
      have h1 : digitsAcc acc [digitCh n] = acc * 10 + ((digitCh n).toNat - 48) := rfl
      have h2 : ([digitCh n] : List Char).length = 1 := rfl
      rw [h1, h2, pow_one, digitCh_toNat n h]
      omega
    · intro acc
      rw [natToChars_eq, if_neg h]
      rw [digitsAcc_append, ih (n / 10) (by omega) acc]
      have hd : ∀ m, digitsAcc m [digitCh (n % 10)] = m * 10 + (n % 10) := by
        intro m
        have h1 : digitsAcc m [digitCh (n % 10)] = m * 10 + ((digitCh (n % 10)).toNat - 48) := rfl
        rw [h1, digitCh_toNat (n % 10) (by omega)]
        omega
      rw [hd]
      have hlen : (natToChars (n / 10) ++ [digitCh (n % 10)]).length =
          (natToChars (n / 10)).length + 1 := by simp
      rw [hlen, pow_succ]
      have hexp : (acc * 10 ^ (natToChars (n / 10)).length + n / 10) * 10 =
          acc * (10 ^ (natToChars (n / 10)).length * 10) + n / 10 * 10 := by ring
      omega

theorem parseDigits_all_digits (ds : List Char) (hds : ∀ c ∈ ds, isDigitCh c = true) :
    ∀ (rest : List Char) (acc : Nat),
      parseDigits (ds ++ rest) acc = parseDigits rest (digitsAcc acc ds) := by
  induction ds with
  | nil => intro rest acc; rfl
  | cons c cs ih =>
    intro rest acc
    rw [List.cons_append]
    have h1 : parseDigits (c :: (cs ++ rest)) acc =
        if isDigitCh c then parseDigits (cs ++ rest) (acc * 10 + (c.toNat - 48))
        else (acc, c :: (cs ++ rest)) := rfl
    have h2 : digitsAcc acc (c :: cs) = digitsAcc (acc * 10 + (c.toNat - 48)) cs := rfl
    rw [h1, if_pos (hds c (by simp)), h2]
    exact ih (fun x hx => hds x (by simp [hx])) rest _

/-- Head of the remaining input is not a decimal digit (so maximal-munch
number parsing stops exactly there). -/
def headNd : List Char → Bool
  | [] => true
  | c :: _ => !(isDigitCh c)

theorem parseDigits_stop (rest : List Char) (h : headNd rest = true) (acc : Nat) :
    parseDigits rest acc = (acc, rest) := by
  cases rest with
  | nil => rfl
  | cons c cs =>
    simp only [headNd, Bool.not_eq_true'] at h
    simp only [parseDigits, h, Bool.false_eq_true, if_false]

theorem parseNum_natToChars (n : Nat) (rest : List Char) (h : headNd rest = true) :
    parseNum (natToChars n ++ rest) = some (n, rest) := by
  cases hE : natToChars n with
  | nil => exact absurd hE (natToChars_ne_nil n)
  | cons d ds =>
    have hdig : isDigitCh d = true := natToChars_digits n d (by rw [hE]; simp)
    simp only [List.cons_append, parseNum, if_pos hdig]
    have h2 : parseDigits (natToChars n ++ rest) 0 = (n, rest) := by
      rw [parseDigits_all_digits (natToChars n) (natToChars_digits n) rest 0,
        parseDigits_stop rest h, digitsAcc_natToChars]
      simp
    rw [← List.cons_append, ← hE, h2]

/-! ## JSON round-trip: string escaping -/

theorem hexVal_hexDigitCh : ∀ m : Nat, m < 16 → hexVal (hexDigitCh m) = some m := by decide

theorem escStr_cons (c : Char) (cs : List Char) : escStr (c :: cs) = escChar c ++ escStr cs := rfl


theorem psb_close (f : Nat) (rest : List Char) :
    parseStrBody (f + 1) (quoteChar :: rest) = some ([], rest) := rfl

theorem psb_escQuote (f : Nat) (cs : List Char) :
    parseStrBody (f + 1) (bslashChar :: quoteChar :: cs) =
      (parseStrBody f cs).map (fun p => (quoteChar :: p.1, p.2)) := rfl

theorem psb_escBslash (f : Nat) (cs : List Char) :
    parseStrBody (f + 1) (bslashChar :: bslashChar :: cs) =
      (parseStrBody f cs).map (fun p => (bslashChar :: p.1, p.2)) := rfl

theorem psb_escB (f : Nat) (cs : List Char) :
    parseStrBody (f + 1) (bslashChar :: 'b' :: cs) =
      (parseStrBody f cs).map (fun p => (Char.ofNat 8 :: p.1, p.2)) := rfl

theorem psb_escT (f : Nat) (cs : List Char) :
    parseStrBody (f + 1) (bslashChar :: 't' :: cs) =
      (parseStrBody f cs).map (fun p => (Char.ofNat 9 :: p.1, p.2)) := rfl

theorem psb_escN (f : Nat) (cs : List Char) :
    parseStrBody (f + 1) (bslashChar :: 'n' :: cs) =
      (parseStrBody f cs).map (fun p => (Char.ofNat 10 :: p.1, p.2)) := rfl

theorem psb_escF (f : Nat) (cs : List Char) :
    parseStrBody (f + 1) (bslashChar :: 'f' :: cs) =
      (parseStrBody f cs).map (fun p => (Char.ofNat 12 :: p.1, p.2)) := rfl

theorem psb_escR (f : Nat) (cs : List Char) :
    parseStrBody (f + 1) (bslashChar :: 'r' :: cs) =
      (parseStrBody f cs).map (fun p => (Char.ofNat 13 :: p.1, p.2)) := rfl

theorem psb_escU (f : Nat) (a b c d : Char) (cs : List Char) (v1 v2 v3 v4 : Nat)
    (ha : hexVal a = some v1) (hb : hexVal b = some v2) (hc : hexVal c = some v3)
    (hd : hexVal d = some v4) :
    parseStrBody (f + 1) (bslashChar :: uChar :: a :: b :: c :: d :: cs) =
      (parseStrBody f cs).map
        (fun p => (Char.ofNat (v1 * 4096 + v2 * 256 + v3 * 16 + v4) :: p.1, p.2)) := by
  have h0 : parseStrBody (f + 1) (bslashChar :: uChar :: a :: b :: c :: d :: cs) =
      match hexVal a, hexVal b, hexVal c, hexVal d with
      | some w1, some w2, some w3, some w4 =>
        (parseStrBody f cs).map
          (fun p => (Char.ofNat (w1 * 4096 + w2 * 256 + w3 * 16 + w4) :: p.1, p.2))
      | _, _, _, _ => none := rfl
  rw [h0, ha, hb, hc, hd]

theorem psb_plain (f : Nat) (c : Char) (cs : List Char) (h1 : ¬(c = quoteChar))
    (h2 : ¬(c = bslashChar)) :
    parseStrBody (f + 1) (c :: cs) = (parseStrBody f cs).map (fun p => (c :: p.1, p.2)) := by
  simp only [parseStrBody, if_neg h1, if_neg h2]

theorem parseStrBody_escStr (s : List Char) :
    ∀ (fuel : Nat) (rest : List Char), s.length < fuel →
      parseStrBody fuel (escStr s ++ (quoteChar :: rest)) = some (s, rest) := by
  induction s with
  | nil =>
    intro fuel rest hfuel
    match fuel with
    | f + 1 =>
      rw [show escStr [] ++ (quoteChar :: rest) = quoteChar :: rest from rfl, psb_close]
  | cons c s ih =>
    intro fuel rest hfuel
    match fuel with
    | f + 1 =>
      have hf : s.length < f := by simpa using Nat.lt_of_succ_lt_succ hfuel
      have ihr := ih f rest hf
      rw [escStr_cons, List.append_assoc]
      unfold escChar
      split_ifs with h1 h2 h3 h4 h5 h6 h7 h8
      · subst h1
        simp only [List.cons_append, List.nil_append]
        rw [psb_escQuote, ihr]
        rfl
      · subst h2
        simp only [List.cons_append, List.nil_append]
        rw [psb_escBslash, ihr]
        rfl
      · simp only [List.cons_append, List.nil_append]
        rw [psb_escB, ihr]
        have hc : Char.ofNat 8 = c := by rw [← h3, Char.ofNat_toNat]
        rw [hc]
        rfl
      · simp only [List.cons_append, List.nil_append]
        rw [psb_escT, ihr]
        have hc : Char.ofNat 9 = c := by rw [← h4, Char.ofNat_toNat]
        rw [hc]
        rfl
      · simp only [List.cons_append, List.nil_append]
        rw [psb_escN, ihr]
        have hc : Char.ofNat 10 = c := by rw [← h5, Char.ofNat_toNat]
        rw [hc]
        rfl
      · simp only [List.cons_append, List.nil_append]
        rw [psb_escF, ihr]
        have hc : Char.ofNat 12 = c := by rw [← h6, Char.ofNat_toNat]
        rw [hc]
        rfl
      · simp only [List.cons_append, List.nil_append]
        rw [psb_escR, ihr]
        have hc : Char.ofNat 13 = c := by rw [← h7, Char.ofNat_toNat]
        rw [hc]
        rfl
      · -- control character, emitted as a lowercase unicode escape
        simp only [List.cons_append, List.nil_append]
        rw [psb_escU f (digitCh 0) (digitCh 0) (hexDigitCh (c.toNat / 16))
          (hexDigitCh (c.toNat % 16)) _ 0 0 (c.toNat / 16) (c.toNat % 16) (by decide) (by decide)
          (hexVal_hexDigitCh (c.toNat / 16) (by omega)) (hexVal_hexDigitCh (c.toNat % 16) (by omega)),
          ihr]
        have hn : 0 * 4096 + 0 * 256 + c.toNat / 16 * 16 + c.toNat % 16 = c.toNat := by omega
        have hc : Char.ofNat (0 * 4096 + 0 * 256 + c.toNat / 16 * 16 + c.toNat % 16) = c := by
          rw [hn, Char.ofNat_toNat]
        rw [hc]
        rfl
      · -- plain character
        simp only [List.cons_append, List.nil_append]
        rw [psb_plain f c _ h1 h2, ihr]
        rfl

/-! ## JSON round-trip: whole documents -/

mutual

def sizeJ : Json → Nat
  | .null => 1
  | .boolV _ => 1
  | .num _ => 1
  | .str _ => 1
  | .arr xs => sizeL xs + 1
  | .obj kvs => sizeM kvs + 1
termination_by structural j => j

def sizeL : List Json → Nat
  | [] => 0
  | x :: xs => sizeJ x + sizeL xs + 1
termination_by structural l => l

def sizeM : List (String × Json) → Nat
  | [] => 0
  | (_, v) :: kvs => sizeJ v + sizeM kvs + 2
termination_by structural l => l

end

theorem char_ne_of_toNat_ne (c d : Char) (h : c.toNat ≠ d.toNat) : ¬(c = d) :=
  fun he => h (he ▸ rfl)

theorem isDigitCh_range (c : Char) (h : isDigitCh c = true) :
    48 ≤ c.toNat ∧ c.toNat ≤ 57 := by
  simpa [isDigitCh, Bool.and_eq_true, decide_eq_true_eq] using h

theorem headNd_sepElems (xs : List Json) (rest : List Char) :
    headNd (sepElems xs ++ (rbrackChar :: rest)) = true := by
  cases xs with
  | nil => rfl
  | cons x xs => rfl

theorem headNd_sepMembers (kvs : List (String × Json)) (rest : List Char) :
    headNd (sepMembers kvs ++ (rbraceChar :: rest)) = true := by
  cases kvs with
  | nil => rfl
  | cons kv kvs => rfl

theorem escChar_len_pos (c : Char) : 1 ≤ (escChar c).length := by
  unfold escChar
  split_ifs <;> simp

theorem escStr_len_ge (cs : List Char) : cs.length ≤ (escStr cs).length := by
  induction cs with
  | nil => simp [escStr]
  | cons c cs ih =>
    rw [escStr_cons]
    have := escChar_len_pos c
    simp only [List.length_append, List.length_cons]
    omega

/-- The first character of a serialized JSON value is never a closing
bracket or brace. -/
theorem stringify_head_ne (j : Json) (d : Char) (ds : List Char)
    (h : stringifyJson j = d :: ds) : ¬(d = rbrackChar) ∧ ¬(d = rbraceChar) := by
  rw [stringifyJson.eq_def] at h
  cases j with
  | null =>
    dsimp only at h
    injection h with h1 _
    subst h1
    exact ⟨by decide, by decide⟩
  | boolV b =>
    cases b with
    | true =>
      dsimp only at h
      injection h with h1 _
      subst h1
      exact ⟨by decide, by decide⟩
    | false =>
      dsimp only at h
      injection h with h1 _
      subst h1
      exact ⟨by decide, by decide⟩
  | num n =>
    dsimp only at h
    rw [intToChars] at h
    by_cases hn : n < 0
    · rw [if_pos hn] at h
      injection h with h1 _
      subst h1
      exact ⟨by decide, by decide⟩
    · rw [if_neg hn] at h
      have hdig : isDigitCh d = true := natToChars_digits n.natAbs d (by rw [h]; simp)
      have hr := isDigitCh_range d hdig
      constructor
      · exact char_ne_of_toNat_ne d rbrackChar (by
          have hrb : rbrackChar.toNat = 93 := by decide
          omega)
      · exact char_ne_of_toNat_ne d rbraceChar (by
          have hrb : rbraceChar.toNat = 125 := by decide
          omega)
  | str s =>
    dsimp only at h
    injection h with h1 _
    subst h1
    exact ⟨by decide, by decide⟩
  | arr xs =>
    dsimp only at h
    injection h with h1 _
    subst h1
    exact ⟨by decide, by decide⟩
  | obj kvs =>
    dsimp only at h
    injection h with h1 _
    subst h1
    exact ⟨by decide, by decide⟩

theorem stringifyJson_ne_nil (j : Json) : stringifyJson j ≠ [] := by
  intro hh
  rw [stringifyJson.eq_def] at hh
  cases j with
  | null => exact List.noConfusion hh
  | boolV b => cases b <;> exact List.noConfusion hh
  | num n =>
    dsimp only at hh
    rw [intToChars] at hh
    split_ifs at hh
    all_goals first
      | exact List.noConfusion hh
      | exact natToChars_ne_nil n.natAbs hh
  | str s => exact List.noConfusion hh
  | arr xs => exact List.noConfusion hh
  | obj kvs => exact List.noConfusion hh

theorem pv_str (f : Nat) (cs : List Char) :
    parseVal (f + 1) (quoteChar :: cs) =
      match parseStrBody (cs.length + 1) cs with
      | some (sc, rest) => some (.str (String.mk sc), rest)
      | none => none := rfl

theorem pv_true (f : Nat) (rest : List Char) :
    parseVal (f + 1) ('t' :: 'r' :: 'u' :: 'e' :: rest) = some (.boolV true, rest) := rfl

theorem pv_false (f : Nat) (rest : List Char) :
    parseVal (f + 1) ('f' :: 'a' :: 'l' :: 's' :: 'e' :: rest) = some (.boolV false, rest) := rfl

theorem pv_null (f : Nat) (rest : List Char) :
    parseVal (f + 1) ('n' :: 'u' :: 'l' :: 'l' :: rest) = some (.null, rest) := rfl

theorem pv_arr (f : Nat) (d : Char) (ds : List Char) :
    parseVal (f + 1) (lbrackChar :: d :: ds) =
      (if d = rbrackChar then some (.arr [], ds)
       else
         match parseVal f (d :: ds) with
         | some (x, rest) =>
           match parseElemsTail f rest with
           | some (xs, rest2) => some (.arr (x :: xs), rest2)
           | none => none
         | none => none) := rfl

theorem pv_obj (f : Nat) (d : Char) (ds : List Char) :
    parseVal (f + 1) (lbraceChar :: d :: ds) =
      (if d = rbraceChar then some (.obj [], ds)
       else
         match parseMemberP f (d :: ds) with
         | some (kv, rest) =>
           match parseMembersTail f rest with
           | some (kvs, rest2) => some (.obj (kv :: kvs), rest2)
           | none => none
         | none => none) := rfl

theorem pv_minus (f : Nat) (cs : List Char) :
    parseVal (f + 1) (minusChar :: cs) =
      match parseNum cs with
      | some (n, rest) => some (.num (-(n : Int)), rest)
      | none => none := rfl

theorem pv_digit (f : Nat) (c : Char) (cs : List Char) (h : isDigitCh c = true) :
    parseVal (f + 1) (c :: cs) =
      match parseNum (c :: cs) with
      | some (n, rest) => some (.num (n : Int), rest)
      | none => none := by
  have hr := isDigitCh_range c h
  have hq : ¬(c = quoteChar) := char_ne_of_toNat_ne c quoteChar (by
    have : quoteChar.toNat = 34 := by decide
    omega)
  have ht : ¬(c = 't') := char_ne_of_toNat_ne c 't' (by
    have : Char.toNat 't' = 116 := by decide
    omega)
  have hf2 : ¬(c = 'f') := char_ne_of_toNat_ne c 'f' (by
    have : Char.toNat 'f' = 102 := by decide
    omega)
  have hn : ¬(c = 'n') := char_ne_of_toNat_ne c 'n' (by
    have : Char.toNat 'n' = 110 := by decide
    omega)
  have hlk : ¬(c = lbrackChar) := char_ne_of_toNat_ne c lbrackChar (by
    have : lbrackChar.toNat = 91 := by decide
    omega)
  have hlc : ¬(c = lbraceChar) := char_ne_of_toNat_ne c lbraceChar (by
    have : lbraceChar.toNat = 123 := by decide
    omega)
  have hm : ¬(c = minusChar) := char_ne_of_toNat_ne c minusChar (by
    have : minusChar.toNat = 45 := by decide
    omega)
  simp only [parseVal, if_neg hq, if_neg ht, if_neg hf2, if_neg hn, if_neg hlk, if_neg hlc,
    if_neg hm, if_pos h]

theorem pet_close (f : Nat) (cs : List Char) :
    parseElemsTail (f + 1) (rbrackChar :: cs) = some ([], cs) := rfl

theorem pet_comma (f : Nat) (cs : List Char) :
    parseElemsTail (f + 1) (commaChar :: cs) =
      match parseVal f cs with
      | some (x, rest) =>
        match parseElemsTail f rest with
        | some (xs, rest2) => some (x :: xs, rest2)
        | none => none
      | none => none := rfl

theorem pm_open (f : Nat) (cs : List Char) :
    parseMemberP (f + 1) (quoteChar :: cs) =
      match parseStrBody (cs.length + 1) cs with
      | some (k, rest) =>
        match rest with
        | [] => none
        | d :: rest2 =>
          if d = colonChar then
            match parseVal f rest2 with
            | some (v, rest3) => some ((String.mk k, v), rest3)
            | none => none
          else none
      | none => none := rfl

theorem pmt_close (f : Nat) (cs : List Char) :
    parseMembersTail (f + 1) (rbraceChar :: cs) = some ([], cs) := rfl

theorem pmt_comma (f : Nat) (cs : List Char) :
    parseMembersTail (f + 1) (commaChar :: cs) =
      match parseMemberP f cs with
      | some (kv, rest) =>
        match parseMembersTail f rest with
        | some (kvs, rest2) => some (kv :: kvs, rest2)
        | none => none
      | none => none := rfl

theorem sizeJ_arr (xs : List Json) : sizeJ (.arr xs) = sizeL xs + 1 := rfl

theorem sizeJ_obj (kvs : List (String × Json)) : sizeJ (.obj kvs) = sizeM kvs + 1 := rfl

theorem sizeL_cons (x : Json) (xs : List Json) : sizeL (x :: xs) = sizeJ x + sizeL xs + 1 := rfl

theorem sizeM_cons (k : String) (v : Json) (kvs : List (String × Json)) :
    sizeM ((k, v) :: kvs) = sizeJ v + sizeM kvs + 2 := rfl

theorem sepElems_cons (x : Json) (xs : List Json) :
    sepElems (x :: xs) = commaChar :: (stringifyJson x ++ sepElems xs) := rfl

theorem sepMembers_cons (kv : String × Json) (kvs : List (String × Json)) :
    sepMembers (kv :: kvs) = commaChar :: (stringifyMember kv ++ sepMembers kvs) := rfl

theorem stringifyMember_eq (k : String) (v : Json) :
    stringifyMember (k, v) =
      quoteChar :: ((escStr k.data ++ [quoteChar, colonChar]) ++ stringifyJson v) := rfl

theorem parse_stringify_bundle : ∀ fuel : Nat,
    (∀ (j : Json) (rest : List Char), sizeJ j < fuel → headNd rest = true →
      parseVal fuel (stringifyJson j ++ rest) = some (j, rest)) ∧
    (∀ (xs : List Json) (rest : List Char), sizeL xs < fuel →
      parseElemsTail fuel (sepElems xs ++ (rbrackChar :: rest)) = some (xs, rest)) ∧
    (∀ (kvs : List (String × Json)) (rest : List Char), sizeM kvs < fuel →
      parseMembersTail fuel (sepMembers kvs ++ (rbraceChar :: rest)) = some (kvs, rest)) ∧
    (∀ (k : String) (v : Json) (rest : List Char), sizeJ v + 1 < fuel → headNd rest = true →
      parseMemberP fuel (stringifyMember (k, v) ++ rest) = some ((k, v), rest)) := by
  intro fuel
  induction fuel using Nat.strong_induction_on with
  | _ fuel ih =>
    match fuel, ih with
    | 0, _ =>
      refine ⟨?_, ?_, ?_, ?_⟩
      · intro j rest hs _; omega
      · intro xs rest hs; omega
      · intro kvs rest hs; omega
      · intro k v rest hs _; omega
    | g + 1, ih =>
      obtain ⟨hP, hQ, hR, hM⟩ := ih g (Nat.lt_succ_self g)
      refine ⟨?_, ?_, ?_, ?_⟩
      · -- parseVal on a stringified value
        intro j rest hs hnd
        cases j with
        | null =>
          rw [stringifyJson.eq_def]
          dsimp only
          simp only [List.cons_append, List.nil_append]
          exact pv_null g rest
        | boolV b =>
          cases b with
          | true =>
            rw [stringifyJson.eq_def]
            dsimp only
            simp only [List.cons_append, List.nil_append]
            exact pv_true g rest
          | false =>
            rw [stringifyJson.eq_def]
            dsimp only
            simp only [List.cons_append, List.nil_append]
            exact pv_false g rest
        | num n =>
          rw [stringifyJson.eq_def]
          dsimp only
          rw [intToChars]
          by_cases hn : n < 0
          · rw [if_pos hn]
            simp only [List.cons_append]
            rw [pv_minus, parseNum_natToChars n.natAbs rest hnd]
            dsimp only
            have hv : -((n.natAbs : Nat) : Int) = n := by omega
            rw [hv]
          · rw [if_neg hn]
            cases hE : natToChars n.natAbs with
            | nil => exact absurd hE (natToChars_ne_nil n.natAbs)
            | cons d ds =>
              have hdig : isDigitCh d = true := natToChars_digits n.natAbs d (by rw [hE]; simp)
              rw [List.cons_append, pv_digit g d (ds ++ rest) hdig]
              have hx : d :: (ds ++ rest) = natToChars n.natAbs ++ rest := by
                rw [hE, List.cons_append]
              rw [hx, parseNum_natToChars n.natAbs rest hnd]
              dsimp only
              have hv : ((n.natAbs : Nat) : Int) = n := by omega
              rw [hv]
        | str s =>
          rw [stringifyJson.eq_def]
          dsimp only
          simp only [List.cons_append, List.append_assoc, List.singleton_append, List.nil_append]
          rw [pv_str]
          have hb := parseStrBody_escStr s.data
            ((escStr s.data ++ (quoteChar :: rest)).length + 1) rest
            (by
              have := escStr_len_ge s.data
              simp only [List.length_append, List.length_cons]
              omega)
          rw [hb]
        | arr xs =>
          rw [stringifyJson.eq_def]
          dsimp only
          cases xs with
          | nil =>
            simp only [List.cons_append, List.nil_append]
            rw [pv_arr, if_pos rfl]
          | cons x xs2 =>
            simp only [List.cons_append, List.append_assoc, List.singleton_append, List.nil_append]
            cases hE : stringifyJson x with
            | nil => exact absurd hE (stringifyJson_ne_nil x)
            | cons d ds =>
              rw [List.cons_append, pv_arr,
                if_neg (stringify_head_ne x d ds hE).1]
              have hx : d :: (ds ++ (sepElems xs2 ++ (rbrackChar :: rest))) =
                  stringifyJson x ++ (sepElems xs2 ++ (rbrackChar :: rest)) := by
                rw [hE, List.cons_append]
              rw [hx]
              have hsx : sizeJ x < g := by
                rw [sizeJ_arr, sizeL_cons] at hs
                omega
              rw [hP x (sepElems xs2 ++ (rbrackChar :: rest)) hsx (headNd_sepElems xs2 rest)]
              dsimp only
              have hsl : sizeL xs2 < g := by
                rw [sizeJ_arr, sizeL_cons] at hs
                omega
              rw [hQ xs2 rest hsl]
        | obj kvs =>
          rw [stringifyJson.eq_def]
          dsimp only
          cases kvs with
          | nil =>
            simp only [List.cons_append, List.nil_append]
            rw [pv_obj, if_pos rfl]
          | cons kv kvs2 =>
            cases kv with
            | mk k v =>
              simp only [List.cons_append, List.append_assoc, List.singleton_append, List.nil_append]
              rw [pv_obj, if_neg (show ¬(quoteChar = rbraceChar) by decide)]
              have hx : quoteChar :: (escStr k.data ++ (quoteChar :: (colonChar ::
                  (stringifyJson v ++ (sepMembers kvs2 ++ (rbraceChar :: rest)))))) =
                  stringifyMember (k, v) ++ (sepMembers kvs2 ++ (rbraceChar :: rest)) := by
                rw [stringifyMember_eq k v]
                simp only [List.cons_append, List.append_assoc, List.singleton_append,
                  List.nil_append]
              rw [hx]
              have hsv : sizeJ v + 1 < g := by
                rw [sizeJ_obj, sizeM_cons] at hs
                omega
              rw [hM k v (sepMembers kvs2 ++ (rbraceChar :: rest)) hsv
                (headNd_sepMembers kvs2 rest)]
              dsimp only
              have hsm : sizeM kvs2 < g := by
                rw [sizeJ_obj, sizeM_cons] at hs
                omega
              rw [hR kvs2 rest hsm]
      · -- parseElemsTail on the serialized tail of an array
        intro xs rest hs
        cases xs with
        | nil => exact pet_close g rest
        | cons y ys =>
          rw [sepElems_cons]
          simp only [List.cons_append, List.append_assoc]
          rw [pet_comma]
          have hsy : sizeJ y < g := by
            rw [sizeL_cons] at hs
            omega
          rw [hP y (sepElems ys ++ (rbrackChar :: rest)) hsy (headNd_sepElems ys rest)]
          dsimp only
          have hsl : sizeL ys < g := by
            rw [sizeL_cons] at hs
            omega
          rw [hQ ys rest hsl]
      · -- parseMembersTail on the serialized tail of an object
        intro kvs rest hs
        cases kvs with
        | nil => exact pmt_close g rest
        | cons kv kvs2 =>
          cases kv with
          | mk k v =>
            rw [sepMembers_cons]
            simp only [List.cons_append, List.append_assoc]
            rw [pmt_comma]
            have hsv : sizeJ v + 1 < g := by
              rw [sizeM_cons] at hs
              omega
            rw [hM k v (sepMembers kvs2 ++ (rbraceChar :: rest)) hsv
              (headNd_sepMembers kvs2 rest)]
            dsimp only
            have hsm : sizeM kvs2 < g := by
              rw [sizeM_cons] at hs
              omega
            rw [hR kvs2 rest hsm]
      · -- parseMemberP on a serialized object member
        intro k v rest hsv hnd
        rw [stringifyMember_eq k v]
        simp only [List.cons_append, List.append_assoc, List.singleton_append, List.nil_append]
        rw [pm_open]
        have hb := parseStrBody_escStr k.data
          ((escStr k.data ++ (quoteChar :: (colonChar :: (stringifyJson v ++ rest)))).length + 1)
          (colonChar :: (stringifyJson v ++ rest))
          (by
            have := escStr_len_ge k.data
            simp only [List.length_append, List.length_cons]
            omega)
        rw [hb]
        dsimp only
        rw [if_pos rfl]
        have hsv2 : sizeJ v < g := by omega
        rw [hP v rest hsv2 hnd]

theorem intToChars_ne_nil (n : Int) : intToChars n ≠ [] := by
  rw [intToChars]
  split_ifs
  · simp
  · exact natToChars_ne_nil n.natAbs

theorem length_pos_of_ne_nil {α : Type} (l : List α) (h : l ≠ []) : 1 ≤ l.length := by
  cases l with
  | nil => exact absurd rfl h
  | cons a l2 => simp

theorem size_le_len_bundle : ∀ n : Nat,
    (∀ j : Json, sizeJ j < n → sizeJ j ≤ (stringifyJson j).length) ∧
    (∀ xs : List Json, sizeL xs < n → sizeL xs ≤ (sepElems xs).length) ∧
    (∀ kvs : List (String × Json), sizeM kvs < n → sizeM kvs ≤ (sepMembers kvs).length) := by
  intro n
  induction n using Nat.strong_induction_on with
  | _ n ih =>
    match n, ih with
    | 0, _ =>
      refine ⟨?_, ?_, ?_⟩
      · intro j h; omega
      · intro xs h; omega
      · intro kvs h; omega
    | g + 1, ih =>
      obtain ⟨hJ, hL, hM⟩ := ih g (Nat.lt_succ_self g)
      refine ⟨?_, ?_, ?_⟩
      · intro j hs
        cases j with
        | null => rw [stringifyJson.eq_def]; dsimp only; simp [sizeJ]
        | boolV b => cases b <;> (rw [stringifyJson.eq_def]; dsimp only; simp [sizeJ])
        | num n2 =>
          rw [stringifyJson.eq_def]
          dsimp only
          have h1 : sizeJ (.num n2) = 1 := rfl
          have h2 := length_pos_of_ne_nil (intToChars n2) (intToChars_ne_nil n2)
          omega
        | str s =>
          rw [stringifyJson.eq_def]
          dsimp only
          have h1 : sizeJ (.str s) = 1 := rfl
          simp only [List.length_cons, List.length_append]
          omega
        | arr xs =>
          rw [stringifyJson.eq_def]
          dsimp only
          rw [sizeJ_arr] at hs ⊢
          cases xs with
          | nil =>
            have h1 : sizeL ([] : List Json) = 0 := rfl
            simp [h1]
          | cons x xs2 =>
            dsimp only
            rw [sizeL_cons] at hs ⊢
            have h1 : sizeJ x < g := by omega
            have h2 : sizeL xs2 < g := by omega
            have h3 := hJ x h1
            have h4 := hL xs2 h2
            simp only [List.length_cons, List.length_append, List.length_singleton]
            omega
        | obj kvs =>
          rw [stringifyJson.eq_def]
          dsimp only
          rw [sizeJ_obj] at hs ⊢
          cases kvs with
          | nil =>
            have h1 : sizeM ([] : List (String × Json)) = 0 := rfl
            simp [h1]
          | cons kv kvs2 =>
            cases kv with
            | mk k v =>
              dsimp only
              rw [sizeM_cons] at hs ⊢
              have h1 : sizeJ v < g := by omega
              have h2 : sizeM kvs2 < g := by omega
              have h3 := hJ v h1
              have h4 := hM kvs2 h2
              simp only [List.length_cons, List.length_append, List.length_singleton]
              omega
      · intro xs hs
        cases xs with
        | nil =>
          rw [show sizeL ([] : List Json) = 0 from rfl]
          omega
        | cons x xs2 =>
          rw [sepElems_cons]
          rw [sizeL_cons] at hs ⊢
          have h1 : sizeJ x < g := by omega
          have h2 : sizeL xs2 < g := by omega
          have h3 := hJ x h1
          have h4 := hL xs2 h2
          simp only [List.length_cons, List.length_append]
          omega
      · intro kvs hs
        cases kvs with
        | nil =>
          rw [show sizeM ([] : List (String × Json)) = 0 from rfl]
          omega
        | cons kv kvs2 =>
          cases kv with
          | mk k v =>
            rw [sepMembers_cons]
            rw [sizeM_cons] at hs ⊢
            have h1 : sizeJ v < g := by omega
            have h2 : sizeM kvs2 < g := by omega
            have h3 := hJ v h1
            have h4 := hM kvs2 h2
            rw [stringifyMember_eq]
            simp only [List.length_cons, List.length_append, List.length_singleton]
            omega

theorem sizeJ_le_len (j : Json) : sizeJ j ≤ (stringifyJson j).length :=
  (size_le_len_bundle (sizeJ j + 1)).1 j (Nat.lt_succ_self _)

/-- `JSON.parse` inverts `JSON.stringify` on whole documents. -/
theorem jsonParse_stringifyJson (j : Json) : jsonParse (stringifyJson j) = some j := by
  unfold jsonParse
  have h := (parse_stringify_bundle ((stringifyJson j).length + 1)).1 j []
    (by have := sizeJ_le_len j; omega) rfl
  rw [List.append_nil] at h
  rw [h]

/-- The full message codec round-trips: a JSON payload published through
`_putMessage`'s serialization is recovered exactly by `_getMessages`'s
deserialization. -/
theorem decodeMessageText_encode (m : Json) :
    decodeMessageText (encodeMessageText m) = some m := by
  unfold encodeMessageText decodeMessageText
  rw [base64Decode_encode (utf8Encode (stringifyJson m)) (utf8Encode_lt_256 _)]
  dsimp only
  rw [utf8Decode_encode]
  dsimp only
  rw [jsonParse_stringifyJson]

/-! ## In-memory queue client (`FakeQueueClient`, lines 680-791)

JS objects keyed by queue name are modelled as association lists: setting
an existing key keeps its position, a new key is appended, `delete`
removes it.  `slugid.v4()` message ids and pop receipts are drawn from the
`nextId` counter. -/

structure ClientErr where
  code : Option String
  statusCode : Option Nat
deriving DecidableEq

def lookupA {β : Type} : List (String × β) → String → Option β
  | [], _ => none
  | (k, v) :: rest, key => if k = key then some v else lookupA rest key

def setA {β : Type} : List (String × β) → String → β → List (String × β)
  | [], key, val => [(key, val)]
  | (k, v) :: rest, key, val =>
    if k = key then (k, val) :: rest else (k, v) :: setA rest key val

def eraseA {β : Type} : List (String × β) → String → List (String × β)
  | [], _ => []
  | (k, v) :: rest, key => if k = key then rest else (k, v) :: eraseA rest key

/-- Queue metadata (`provisioner_id`, `worker_type`, `last_used`); the
`last_used` JSON date string is modelled as its parsed millisecond value,
`none` for a missing or unparseable one.  An absent field of a plain JS
object reads as `undefined`, hence the `Option`s; `{}` is all-`none`. -/
structure QueueMetadata where
  provisioner_id : Option String
  worker_type : Option String
  last_used : Option Int
deriving DecidableEq

def emptyMetadata : QueueMetadata := ⟨none, none, none⟩

structure FakeMsg where
  messageText : List Char
  messageId : Nat
  popReceipt : Option Nat
  visibleAfter : Int
  expiresAfter : Int
deriving DecidableEq

structure FakeState where
  queues : List (String × List FakeMsg)
  metadata : List (String × QueueMetadata)
  nextId : Nat
deriving DecidableEq

def queueNotFoundErr : ClientErr := ⟨some "QueueNotFound", some 404⟩

def assertionErr : ClientErr := ⟨some "ERR_ASSERTION", none⟩

/-- `createQueue(name, metadata)` (lines 701-704): unconditionally installs
an empty queue and the given metadata (defaulting to `{}`), never
reporting `QueueAlreadyExists`. -/
def createQueue (s : FakeState) (name : String) (md : Option QueueMetadata) : FakeState :=
  { s with
    queues := setA s.queues name []
    metadata := setA s.metadata name (md.getD emptyMetadata) }

/-- `getMetadata(name)` (lines 706-712): metadata plus the exact message
count; `QueueNotFound` (status 404) when the queue does not exist. -/
def getMetadata (s : FakeState) (name : String) :
    Except ClientErr (QueueMetadata × Nat) :=
  match lookupA s.queues name with
  | none => .error queueNotFoundErr
  | some q => .ok ((lookupA s.metadata name).getD emptyMetadata, q.length)

/-- `setMetadata(name, update)` (lines 714-717): `Object.assign` of the
update onto the stored metadata; a field present in the update overwrites
the stored one. -/
def setMetadata (s : FakeState) (name : String) (upd : QueueMetadata) :
    Except ClientErr FakeState :=
  match lookupA s.queues name with
  | none => .error queueNotFoundErr
  | some _ =>
    let old := (lookupA s.metadata name).getD emptyMetadata
    let merged : QueueMetadata :=
      ⟨match upd.provisioner_id with | some v => some v | none => old.provisioner_id,
       match upd.worker_type with | some v => some v | none => old.worker_type,
       match upd.last_used with | some v => some v | none => old.last_used⟩
    .ok { s with metadata := setA s.metadata name merged }

/-- `putMessage(name, text, {visibilityTimeout, messageTTL})` (lines
719-727): appends a message visible after `now + visibilityTimeout`
seconds and expiring after `now + messageTTL` seconds. -/
def putMessage (s : FakeState) (name : String) (text : List Char)
    (visibilityTimeout messageTTL : Int) (now : Int) : Except ClientErr FakeState :=
  match lookupA s.queues name with
  | none => .error queueNotFoundErr
  | some q =>
    let msg : FakeMsg :=
      ⟨text, s.nextId, none, now + visibilityTimeout * 1000, now + messageTTL * 1000⟩
    .ok { s with queues := setA s.queues name (q ++ [msg]), nextId := s.nextId + 1 }

structure GotMsg where
  messageText : List Char
  messageId : Nat
  popReceipt : Nat
deriving DecidableEq

/-- The `for (msg of queue)` loop of `getMessages` (lines 735-748): a
message is returned iff `now > _visibleAfter` and `now ≤ _expiresAfter`;
each returned message gets the new visibility time and a fresh pop
receipt, and the loop breaks once the collected count reaches
`numberOfMessages` (so a target of 0 never breaks). -/
def getMessagesAux (now vis : Int) (target : Nat) :
    List FakeMsg → Nat → Nat → List FakeMsg × List GotMsg × Nat
  | [], _, ctr => ([], [], ctr)
  | m :: ms, collected, ctr =>
    if now > m.visibleAfter ∧ now ≤ m.expiresAfter then
      let m2 := { m with visibleAfter := now + vis * 1000, popReceipt := some ctr }
      let got : GotMsg := ⟨m.messageText, m.messageId, ctr⟩
      if collected + 1 = target then (m2 :: ms, [got], ctr + 1)
      else
        let r := getMessagesAux now vis target ms (collected + 1) (ctr + 1)
        (m2 :: r.1, got :: r.2.1, r.2.2)
    else
      let r := getMessagesAux now vis target ms collected ctr
      (m :: r.1, r.2.1, r.2.2)

/-- `getMessages(name, {visibilityTimeout, numberOfMessages})` (lines
729-751). -/
def getMessages (s : FakeState) (name : String) (visibilityTimeout : Int)
    (numberOfMessages : Nat) (now : Int) : Except ClientErr (List GotMsg × FakeState) :=
  match lookupA s.queues name with
  | none => .error queueNotFoundErr
  | some q =>
    let r := getMessagesAux now visibilityTimeout numberOfMessages q 0 s.nextId
    .ok (r.2.1, { s with queues := setA s.queues name r.1, nextId := r.2.2 })

/-- The `queue.filter` body of `deleteMessage` (lines 753-762): drops the
message with the given id, asserting its pop receipt matches. -/
def deleteMessageAux (mid pr : Nat) : List FakeMsg → Except ClientErr (List FakeMsg)
  | [] => .ok []
  | m :: ms =>
    if m.messageId = mid then
      if m.popReceipt = some pr then deleteMessageAux mid pr ms
      else .error assertionErr
    else (deleteMessageAux mid pr ms).map (fun r => m :: r)

def deleteMessage (s : FakeState) (name : String) (mid pr : Nat) :
    Except ClientErr FakeState :=
  match lookupA s.queues name with
  | none => .error queueNotFoundErr
  | some q =>
    match deleteMessageAux mid pr q with
    | .error e => .error e
    | .ok q2 => .ok { s with queues := setA s.queues name q2 }

/-- The `queue.forEach` body of `updateMessage` (lines 764-775): replaces
the text and visibility time of the message with the given id, asserting
its pop receipt matches. -/
def updateMessageAux (now vt : Int) (text : List Char) (mid pr : Nat) :
    List FakeMsg → Except ClientErr (List FakeMsg)
  | [] => .ok []
  | m :: ms =>
    if m.messageId = mid then
      if m.popReceipt = some pr then
        (updateMessageAux now vt text mid pr ms).map
          (fun r => { m with messageText := text, visibleAfter := now + vt * 1000 } :: r)
      else .error assertionErr
    else (updateMessageAux now vt text mid pr ms).map (fun r => m :: r)

def updateMessage (s : FakeState) (name : String) (text : List Char) (mid pr : Nat)
    (visibilityTimeout : Int) (now : Int) : Except ClientErr FakeState :=
  match lookupA s.queues name with
  | none => .error queueNotFoundErr
  | some q =>
    match updateMessageAux now visibilityTimeout text mid pr q with
    | .error e => .error e
    | .ok q2 => .ok { s with queues := setA s.queues name q2 }

/-- `listQueues` (lines 777-785): every queue with its metadata,
`nextMarker` always `undefined` (the fake ignores `prefix` and `marker`). -/
def listQueues (s : FakeState) : List (String × QueueMetadata) :=
  s.queues.map (fun p => (p.1, (lookupA s.metadata p.1).getD emptyMetadata))

/-- `deleteQueue(name)` (lines 787-790). -/
def deleteQueue (s : FakeState) (name : String) : FakeState :=
  { s with queues := eraseA s.queues name, metadata := eraseA s.metadata name }

/-! ## Queue naming: SHA-256 + base32 (`hashId`, lines 406-409)

`crypto.createHash(sha256).update(id)` over the identifier's UTF-8 bytes,
truncated to 15 bytes and base32-encoded (RFC 4648 alphabet), lowercased. -/

def rotr32 (n x : Nat) : Nat := ((x >>> n) ||| (x <<< (32 - n))) % 4294967296

def shaBigSigma0 (x : Nat) : Nat := rotr32 2 x ^^^ rotr32 13 x ^^^ rotr32 22 x

def shaBigSigma1 (x : Nat) : Nat := rotr32 6 x ^^^ rotr32 11 x ^^^ rotr32 25 x

def shaSmallSigma0 (x : Nat) : Nat := rotr32 7 x ^^^ rotr32 18 x ^^^ (x >>> 3)

def shaSmallSigma1 (x : Nat) : Nat := rotr32 17 x ^^^ rotr32 19 x ^^^ (x >>> 10)

def shaK : List Nat :=
  [1116352408, 1899447441, 3049323471, 3921009573,
   961987163, 1508970993, 2453635748, 2870763221,
   3624381080, 310598401, 607225278, 1426881987,
   1925078388, 2162078206, 2614888103, 3248222580,
   3835390401, 4022224774, 264347078, 604807628,
   770255983, 1249150122, 1555081692, 1996064986,
   2554220882, 2821834349, 2952996808, 3210313671,
   3336571891, 3584528711, 113926993, 338241895,
   666307205, 773529912, 1294757372, 1396182291,
   1695183700, 1986661051, 2177026350, 2456956037,
   2730485921, 2820302411, 3259730800, 3345764771,
   3516065817, 3600352804, 4094571909, 275423344,
   430227734, 506948616, 659060556, 883997877,
   958139571, 1322822218, 1537002063, 1747873779,
   1955562222, 2024104815, 2227730452, 2361852424,
   2428436474, 2756734187, 3204031479, 3329325298]

def shaH0 : List Nat :=
  [1779033703, 3144134277, 1013904242, 2773480762,
   1359893119, 2600822924, 528734635, 1541459225]

def toBytesBE : Nat → Nat → List Nat
  | 0, _ => []
  | k + 1, v => toBytesBE k (v / 256) ++ [v % 256]

def sha256Pad (msg : List Nat) : List Nat :=
  let len := msg.length
  let r := (len + 1) % 64
  let zeros := if r ≤ 56 then 56 - r else 120 - r
  msg ++ [128] ++ List.replicate zeros 0 ++ toBytesBE 8 (len * 8)

def bytesToWords : List Nat → List Nat
  | a :: b :: c :: d :: rest => (a * 16777216 + b * 65536 + c * 256 + d) :: bytesToWords rest
  | _ => []

def shaExtend : Nat → List Nat → List Nat
  | 0, w => w
  | k + 1, w =>
    let i := w.length
    let nw := (shaSmallSigma1 (w.getD (i - 2) 0) + w.getD (i - 7) 0 +
      shaSmallSigma0 (w.getD (i - 15) 0) + w.getD (i - 16) 0) % 4294967296
    shaExtend k (w ++ [nw])

def shaRound (st : List Nat) (kw : Nat × Nat) : List Nat :=
  let a := st.getD 0 0
  let b := st.getD 1 0
  let c := st.getD 2 0
  let d := st.getD 3 0
  let e := st.getD 4 0
  let f := st.getD 5 0
  let g := st.getD 6 0
  let h := st.getD 7 0
  let ch := (e &&& f) ^^^ ((4294967295 - e) &&& g)
  let t1 := (h + shaBigSigma1 e + ch + kw.1 + kw.2) % 4294967296
  let maj := (a &&& b) ^^^ (a &&& c) ^^^ (b &&& c)
  let t2 := (shaBigSigma0 a + maj) % 4294967296
  [(t1 + t2) % 4294967296, a, b, c, (d + t1) % 4294967296, e, f, g]

def shaCompress (h : List Nat) (block : List Nat) : List Nat :=
  let w := shaExtend 48 (bytesToWords block)
  let st := (shaK.zip w).foldl shaRound h
  (h.zip st).map (fun p => (p.1 + p.2) % 4294967296)

def shaBlocks : List Nat → List Nat → List Nat
  | h, [] => h
  | h, b :: rest => shaBlocks (shaCompress h ((b :: rest).take 64)) ((b :: rest).drop 64)
termination_by _ bs => bs.length
decreasing_by simp; omega

def sha256 (msg : List Nat) : List Nat :=
  (shaBlocks shaH0 (sha256Pad msg)).foldr (fun w acc => toBytesBE 4 w ++ acc) []

/-- One lowercase character of the RFC 4648 base32 alphabet
(`abcdefghijklmnopqrstuvwxyz234567`). -/
def b32Char (v : Nat) : Char :=
  if v < 26 then Char.ofNat (97 + v) else Char.ofNat (50 + (v - 26))

def base32Encode5 (a b c d e : Nat) : List Char :=
  let n := a * 4294967296 + b * 16777216 + c * 65536 + d * 256 + e
  [b32Char (n / 34359738368 % 32), b32Char (n / 1073741824 % 32),
   b32Char (n / 33554432 % 32), b32Char (n / 1048576 % 32),
   b32Char (n / 32768 % 32), b32Char (n / 1024 % 32),
   b32Char (n / 32 % 32), b32Char (n % 32)]

def base32Encode : List Nat → List Char
  | a :: b :: c :: d :: e :: rest => base32Encode5 a b c d e ++ base32Encode rest
  | _ => []

/-- `hashId` (lines 406-409): sha256 of the identifier, truncated to 15
bytes, base32, lowercase (24 characters). -/
def hashId (id : String) : String :=
  String.mk (base32Encode ((sha256 (utf8Encode id.data)).take 15))

/-! ## Priorities (lines 30-52) -/

inductive Priority where
  | highest
  | veryHigh
  | high
  | medium
  | low
  | veryLow
  | lowest
deriving DecidableEq

/-- `PRIORITY_TO_CONSTANT` (lines 31-39). -/
def priorityConstant : Priority → String
  | .highest => "7"
  | .veryHigh => "6"
  | .high => "5"
  | .medium => "4"
  | .low => "3"
  | .veryLow => "2"
  | .lowest => "1"

/-- `PRIORITIES`, in order of priority from high to low (lines 43-51). -/
def PRIORITIES : List Priority :=
  [.highest, .veryHigh, .high, .medium, .low, .veryLow, .lowest]

/-- The queue-name prefix for a (provisionerId, workerType) pair:
`[prefix, hashId(provisionerId), hashId(workerType), ''].join('-')`
(lines 411-417); the priority constant is appended per shard. -/
def mkNamePrefix (pfx pid wt : String) : String :=
  pfx ++ "-" ++ hashId pid ++ "-" ++ hashId wt ++ "-"

def queueNameFor (np : String) (p : Priority) : String := np ++ priorityConstant p

/-- `/^[A-Za-z0-9_-]{1,38}$/` (lines 400-403). -/
def isIdentChar (c : Char) : Bool :=
  (65 ≤ c.toNat && c.toNat ≤ 90) || (97 ≤ c.toNat && c.toNat ≤ 122) ||
    (48 ≤ c.toNat && c.toNat ≤ 57) || c.toNat = 95 || c.toNat = 45

def validIdentifier (s : String) : Bool :=
  1 ≤ s.data.length && s.data.length ≤ 38 && s.data.all isIdentChar

/-! ## Message codec plumbing of the service (`_putMessage` /
`_getMessages`, lines 138-171) -/

def jsonGet (p : Option Json) (k : String) : Option Json := p.bind (fun j => j.get k)

/-- `new Date(x)` on a payload field: a number is a millisecond
timestamp, anything else is an invalid date here (ISO strings are
collapsed to their millisecond value by the date convention). -/
def jsonDate : Option Json → Option Int
  | some (.num n) => some n
  | _ => none

/-- A message as `_getMessages` hands it to the service: the decoded
payload plus the data captured by the bound `remove` / `release`
closures (queue name, message id, pop receipt, original text). -/
structure SvcMsg where
  payload : Option Json
  msgQueue : String
  msgId : Nat
  msgReceipt : Nat
  msgText : List Char

/-- `_putMessage(queue, message, {visibility, ttl})` (lines 138-144). -/
def svcPutMessage (fs : FakeState) (queue : String) (m : Json)
    (visibility ttl : Int) (now : Int) : Except ClientErr FakeState :=
  putMessage fs queue (encodeMessageText m) visibility ttl now

/-- `_getMessages(queue, {visibility, count})` (lines 146-171). -/
def svcGetMessages (fs : FakeState) (queue : String) (visibility : Int)
    (count : Nat) (now : Int) : Except ClientErr (List SvcMsg × FakeState) :=
  match getMessages fs queue visibility count now with
  | .error e => .error e
  | .ok (rv, fs2) =>
    .ok (rv.map (fun g =>
      ⟨decodeMessageText g.messageText, queue, g.messageId, g.popReceipt, g.messageText⟩), fs2)

/-- A message's `remove()` handle (lines 154-159). -/
def svcRemove (fs : FakeState) (m : SvcMsg) : Except ClientErr FakeState :=
  deleteMessage fs m.msgQueue m.msgId m.msgReceipt

/-- A message's `release()` handle (lines 160-168): `updateMessage` with
the original text and `visibilityTimeout: 0`. -/
def svcRelease (fs : FakeState) (m : SvcMsg) (now : Int) : Except ClientErr FakeState :=
  updateMessage fs m.msgQueue m.msgText m.msgId m.msgReceipt 0 now

/-! ## QueueService state and operations (lines 60-673), composed with
the in-memory client -/

structure CountEntry where
  count : Nat
  lastUpdated : Int
deriving DecidableEq

structure SvcState where
  fake : FakeState
  queues : List (String × String)
  countPendingCache : List (String × CountEntry)
  claimQueueReady : Bool
  resolvedQueueReady : Bool
  deadlineQueueReady : Bool
  qnPre : String
  claimQueue : String
  resolvedQueue : String
  deadlineQueue : String
  deadlineDelay : Int
deriving DecidableEq

inductive SvcErr where
  | invalidIdentifier
  | assertFail (msg : String)
  | client (e : ClientErr)
deriving DecidableEq

/-- `ensureClaimQueue` (lines 174-184); the fake `createQueue` always
succeeds, so the negative-result catch never fires. -/
def ensureClaimQueue (s : SvcState) : SvcState :=
  if s.claimQueueReady then s
  else { s with fake := createQueue s.fake s.claimQueue none, claimQueueReady := true }

/-- `ensureResolvedQueue` (lines 187-197). -/
def ensureResolvedQueue (s : SvcState) : SvcState :=
  if s.resolvedQueueReady then s
  else { s with fake := createQueue s.fake s.resolvedQueue none, resolvedQueueReady := true }

/-- `ensureDeadlineQueue` (lines 200-210). -/
def ensureDeadlineQueue (s : SvcState) : SvcState :=
  if s.deadlineQueueReady then s
  else { s with fake := createQueue s.fake s.deadlineQueue none, deadlineQueueReady := true }

def claimPayload (taskId : String) (runId : Nat) (takenUntil : Int) : Json :=
  .obj [("taskId", .str taskId), ("runId", .num runId), ("takenUntil", .num takenUntil)]

/-- `putClaimMessage(taskId, runId, takenUntil)` (lines 213-228): TTL 7
days, visibility delay `secondsTo(takenUntil)`. -/
def putClaimMessage (s : SvcState) (taskId : String) (runId : Nat)
    (takenUntil : Int) (now : Int) : Except SvcErr SvcState :=
  if taskId = "" then .error (.assertFail "taskId must be given")
  else
    let s1 := ensureClaimQueue s
    match svcPutMessage s1.fake s1.claimQueue (claimPayload taskId runId takenUntil)
        (secondsTo takenUntil now) (7 * 24 * 60 * 60) now with
    | .error e => .error (.client e)
    | .ok fs2 => .ok { s1 with fake := fs2 }

def resolvedPayload (taskId taskGroupId schedulerId resolution : String) : Json :=
  .obj [("taskId", .str taskId), ("taskGroupId", .str taskGroupId),
    ("schedulerId", .str schedulerId), ("resolution", .str resolution)]

/-- `putResolvedMessage(taskId, taskGroupId, schedulerId, resolution)`
(lines 231-246): resolution must be `completed`, `failed` or `exception`;
TTL 7 days, visibility 0. -/
def putResolvedMessage (s : SvcState) (taskId taskGroupId schedulerId resolution : String)
    (now : Int) : Except SvcErr SvcState :=
  if taskId = "" then .error (.assertFail "taskId must be given")
  else if taskGroupId = "" then .error (.assertFail "taskGroupId must be given")
  else if schedulerId = "" then .error (.assertFail "schedulerId must be given")
  else if ¬(resolution = "completed" ∨ resolution = "failed" ∨ resolution = "exception") then
    .error (.assertFail "resolution must be completed, failed or exception")
  else
    let s1 := ensureResolvedQueue s
    match svcPutMessage s1.fake s1.resolvedQueue
        (resolvedPayload taskId taskGroupId schedulerId resolution) 0 (7 * 24 * 60 * 60) now with
    | .error e => .error (.client e)
    | .ok fs2 => .ok { s1 with fake := fs2 }

def deadlinePayload (taskId taskGroupId schedulerId : String) (deadline : Int) : Json :=
  .obj [("taskId", .str taskId), ("taskGroupId", .str taskGroupId),
    ("schedulerId", .str schedulerId), ("deadline", .num deadline)]

/-- `putDeadlineMessage(taskId, taskGroupId, schedulerId, deadline)`
(lines 249-269): TTL 7 days, visibility
`secondsTo(deadline) + floor(deadlineDelay / 1000)`. -/
def putDeadlineMessage (s : SvcState) (taskId taskGroupId schedulerId : String)
    (deadline : Int) (now : Int) : Except SvcErr SvcState :=
  if taskId = "" then .error (.assertFail "taskId must be given")
  else if taskGroupId = "" then .error (.assertFail "taskGroupId must be given")
  else if schedulerId = "" then .error (.assertFail "schedulerId must be given")
  else
    let s1 := ensureDeadlineQueue s
    let delay := s1.deadlineDelay / 1000
    match svcPutMessage s1.fake s1.deadlineQueue
        (deadlinePayload taskId taskGroupId schedulerId deadline)
        (secondsTo deadline now + delay) (7 * 24 * 60 * 60) now with
    | .error e => .error (.client e)
    | .ok fs2 => .ok { s1 with fake := fs2 }

structure ClaimRec where
  taskId : Option Json
  runId : Option Json
  takenUntil : Option Int
  msg : SvcMsg

/-- `pollClaimQueue()` (lines 289-308): up to 32 messages with a
10-minute visibility lease. -/
def pollClaimQueue (s : SvcState) (now : Int) : Except SvcErr (List ClaimRec × SvcState) :=
  let s1 := ensureClaimQueue s
  match svcGetMessages s1.fake s1.claimQueue (10 * 60) 32 now with
  | .error e => .error (.client e)
  | .ok (ms, fs2) =>
    .ok (ms.map (fun m =>
      ⟨jsonGet m.payload "taskId", jsonGet m.payload "runId",
        jsonDate (jsonGet m.payload "takenUntil"), m⟩), { s1 with fake := fs2 })

structure DeadlineRec where
  taskId : Option Json
  taskGroupId : Option Json
  schedulerId : Option Json
  deadline : Option Int
  msg : SvcMsg

/-- `pollDeadlineQueue()` (lines 367-387). -/
def pollDeadlineQueue (s : SvcState) (now : Int) :
    Except SvcErr (List DeadlineRec × SvcState) :=
  let s1 := ensureDeadlineQueue s
  match svcGetMessages s1.fake s1.deadlineQueue (10 * 60) 32 now with
  | .error e => .error (.client e)
  | .ok (ms, fs2) =>
    .ok (ms.map (fun m =>
      ⟨jsonGet m.payload "taskId", jsonGet m.payload "taskGroupId",
        jsonGet m.payload "schedulerId", jsonDate (jsonGet m.payload "deadline"), m⟩),
      { s1 with fake := fs2 })

def lastUsedRecent (lu : Option Int) (now : Int) : Bool :=
  match lu with
  | some t => decide (t > now - 82800000)
  | none => false

/-- `_ensureQueueAndMetadata` (lines 447-498) composed with the fake
client: `getMetadata` on a missing queue throws `QueueNotFound` with
status 404, which the catch turns into `createQueue` (never failing on
the fake, so the `QueueAlreadyExists` race branch is unreachable); on a
present queue with stale or mismatched metadata, `setMetadata` writes
the fresh identifiers and timestamp (the update carries all three
fields, so the `Object.assign` merge equals the fresh metadata). -/
def ensureQueueAndMetadataFake (fs : FakeState) (queue pid wt : String)
    (now : Int) : FakeState :=
  match lookupA fs.queues queue with
  | none => createQueue fs queue (some ⟨some pid, some wt, some now⟩)
  | some _ =>
    let md := (lookupA fs.metadata queue).getD emptyMetadata
    if md.provisioner_id = some pid ∧ md.worker_type = some wt ∧
        lastUsedRecent md.last_used now = true then
      fs
    else
      { fs with metadata := setA fs.metadata queue ⟨some pid, some wt, some now⟩ }

/-- `ensurePendingQueue(provisionerId, workerType)` (lines 390-433)
composed with the fake client: a cached entry is returned untouched;
otherwise the identifiers are validated, all 7 shards are ensured (on
distinct queue names, so the concurrent `Promise.all` equals this
sequential fold and never rejects over the fake), and the name map —
determined by its prefix — is cached.  The cached value is the name
prefix; `queueNameFor` recovers the priority-to-name map
`_.mapValues(PRIORITY_TO_CONSTANT, c => namePrefix + c)`. -/
def ensurePendingQueue (s : SvcState) (pid wt : String) (now : Int) :
    Except SvcErr (SvcState × String) :=
  let id := pid ++ "/" ++ wt
  match lookupA s.queues id with
  | some np => .ok (s, np)
  | none =>
    if validIdentifier pid && validIdentifier wt then
      let np := mkNamePrefix s.qnPre pid wt
      let fs := PRIORITIES.foldl
        (fun st p => ensureQueueAndMetadataFake st (queueNameFor np p) pid wt now) s.fake
      .ok ({ s with fake := fs, queues := setA s.queues id np }, np)
    else .error .invalidIdentifier

structure TaskRef where
  taskId : String
  provisionerId : String
  workerType : String
  deadline : Int
  priority : Priority

def pendingPayload (taskId : String) (runId : Nat) (hint : Nat) : Json :=
  .obj [("taskId", .str taskId), ("runId", .num runId), ("hintId", .str (toString hint))]

/-- `putPendingMessage(task, runId)` (lines 568-599): resolves the shard
family, computes `secondsTo(task.deadline)`, skips publication when that
is zero (returning `false` in the second component), and otherwise
publishes `{taskId, runId, hintId}` to the shard of `task.priority` with
TTL `timeToDeadline` and visibility 0 (returning `true`).  The typed
`TaskRef` discharges `validateTask`'s typeof/instanceof asserts; the
fresh `slugid.v4()` hint is drawn from the state's counter. -/
def putPendingMessage (s : SvcState) (task : TaskRef) (runId : Nat) (now : Int) :
    Except SvcErr (SvcState × Bool) :=
  match ensurePendingQueue s task.provisionerId task.workerType now with
  | .error e => .error e
  | .ok (s1, np) =>
    let timeToDeadline := secondsTo task.deadline now
    if timeToDeadline = 0 then
      .ok (s1, false)
    else
      let hint := s1.fake.nextId
      let fs1 := { s1.fake with nextId := hint + 1 }
      match svcPutMessage fs1 (queueNameFor np task.priority)
          (pendingPayload task.taskId runId hint) 0 timeToDeadline now with
      | .error e => .error (.client e)
      | .ok fs2 => .ok ({ s1 with fake := fs2 }, true)

structure PendingRec where
  taskId : Option Json
  runId : Option Json
  hintId : Option Json
  msg : SvcMsg

/-- `pendingQueues(provisionerId, workerType)` (lines 614-641): the list
of shard queue names in `PRIORITIES` order; each entry stands for one
returned `poll(count)` function (see `pendingPoll`). -/
def pendingQueues (s : SvcState) (pid wt : String) (now : Int) :
    Except SvcErr (SvcState × List String) :=
  match ensurePendingQueue s pid wt now with
  | .error e => .error e
  | .ok (s1, np) => .ok (s1, PRIORITIES.map (fun p => queueNameFor np p))

/-- The `poll(count)` closure returned by `pendingQueues` for one shard
(lines 624-639): `_getMessages` with a 5-minute visibility lease and
count `Math.min(count, 32)`. -/
def pendingPoll (fs : FakeState) (queue : String) (count : Nat) (now : Int) :
    Except ClientErr (List PendingRec × FakeState) :=
  match svcGetMessages fs queue (5 * 60) (min count 32) now with
  | .error e => .error e
  | .ok (ms, fs2) =>
    .ok (ms.map (fun m =>
      ⟨jsonGet m.payload "taskId", jsonGet m.payload "runId",
        jsonGet m.payload "hintId", m⟩), fs2)

/-- `countPendingMessages(provisionerId, workerType)` (lines 644-672).
The promise-valued cache entry is modelled by its resolved count.  When
the entry is more than 20 seconds old the code replaces `entry.count`
with the refresh promise and then `await`s that same promise, so the
caller receives the freshly summed `messageCount`s (third component
`true`); otherwise it receives the cached count with no metadata fetch
(third component `false`).  After `ensurePendingQueue` the shard queues
exist, so each `getMetadata` resolves with the exact queue length. -/
def countPendingMessages (s : SvcState) (pid wt : String) (now : Int) :
    Except SvcErr (SvcState × Nat × Bool) :=
  let key := pid ++ "/" ++ wt
  let entry := (lookupA s.countPendingCache key).getD ⟨0, 0⟩
  let s0 := { s with countPendingCache := setA s.countPendingCache key entry }
  if now - entry.lastUpdated > 20000 then
    match ensurePendingQueue s0 pid wt now with
    | .error e => .error e
    | .ok (s1, np) =>
      let total := (PRIORITIES.map
        (fun p => ((lookupA s1.fake.queues (queueNameFor np p)).getD []).length)).sum
      .ok ({ s1 with countPendingCache := setA s1.countPendingCache key ⟨total, now⟩ },
        total, true)
  else
    .ok (s0, entry.count, false)

def truthyS : Option String → Bool
  | none => false
  | some s => if s = "" then false else true

/-- The deletion filter of `deleteUnusedWorkerQueues` (lines 523-532): a
queue is marked when `provisioner_id` or `worker_type` is falsy, the
`last_used` date is invalid, or it is older than the 10-day cutoff. -/
def shouldDeleteMeta (md : QueueMetadata) (cutoff : Int) : Bool :=
  !(truthyS md.provisioner_id) || !(truthyS md.worker_type) ||
    (match md.last_used with
     | none => true
     | some lu => decide (lu < cutoff))

/-- The per-queue body of the deletion pass (lines 535-547): fetch the
approximate message count, skip the queue when it is non-empty, delete
it and count otherwise. -/
def gcSweep (fs : FakeState) (marked : List String) (cnt : Nat) :
    Except ClientErr (FakeState × Nat) :=
  match marked with
  | [] => .ok (fs, cnt)
  | name :: rest =>
    match lookupA fs.queues name with
    | none => .error queueNotFoundErr
    | some q =>
      if q.length > 0 then gcSweep fs rest cnt
      else gcSweep (deleteQueue fs name) rest (cnt + 1)

/-- `deleteUnusedWorkerQueues(now)` (lines 504-554) over the fake client:
`listQueues` returns every queue with its metadata and an `undefined`
continuation marker, so the pagination loop runs exactly once; the
`Promise.all` deletion pass touches pairwise distinct queue names, so it
equals this sequential sweep. -/
def deleteUnusedWorkerQueues (fs : FakeState) (now : Int) :
    Except ClientErr (FakeState × Nat) :=
  let deleteIfNotUsedSince := now - 864000000
  let marked := ((listQueues fs).filter
    (fun q => shouldDeleteMeta q.2 deleteIfNotUsedSince)).map (fun q => q.1)
  gcSweep fs marked 0

/-! ## Abstract-client models for the metadata-ensure logic

The fake client can signal neither a `QueueAlreadyExists` race nor a
transient service error, so the branch structure of
`_ensureQueueAndMetadata` (lines 447-498) and the failure handling of
`ensurePendingQueue` (lines 390-433) are additionally modelled against an
abstract client whose outcomes are oracle parameters. -/

/-- The client write (or error) performed by one `_ensureQueueAndMetadata`
call. -/
inductive EnsureAct where
  | noop
  | setMeta (md : QueueMetadata)
  | created (md : QueueMetadata)
  | createdRaced
  | failed (e : ClientErr)
deriving DecidableEq

/-- `_ensureQueueAndMetadata(queue, provisionerId, workerType)` (lines
447-498) against an abstract client: `gm` is the outcome of
`getMetadata(queue)` and `cq` the outcome of a `createQueue` attempt
(`none` = success). -/
def ensureQueueAndMetadataO (gm : Except ClientErr QueueMetadata)
    (cq : Option ClientErr) (pid wt : String) (now : Int) : EnsureAct :=
  match gm with
  | .ok md =>
    if md.provisioner_id = some pid ∧ md.worker_type = some wt ∧
        lastUsedRecent md.last_used now = true then .noop
    else .setMeta ⟨some pid, some wt, some now⟩
  | .error err =>
    if err.code ≠ some "QueueNotFound" ∧ err.statusCode ≠ some 404 then .failed err
    else
      match cq with
      | none => .created ⟨some pid, some wt, some now⟩
      | some err2 =>
        if err2.code ≠ some "QueueAlreadyExists" then .failed err2 else .createdRaced

/-- Whether an `EnsureAct` raises to the caller. -/
def EnsureAct.raises : EnsureAct → Bool
  | .failed _ => true
  | _ => false

/-- Whether an `EnsureAct` issued a client write (a `setMetadata` or a
`createQueue` attempt). -/
def EnsureAct.wrote : EnsureAct → Bool
  | .noop => false
  | _ => true

/-- `ensurePendingQueue` (lines 390-433) against an abstract client:
`results p` is the outcome of the shard-`p` ensure (`none` = success).
A cached entry short-circuits; invalid identifiers fail fast; when any
shard rejects, the `catch` clears the optimistic cache entry and
rethrows the (first) rejection; on success the name-map (determined by
its prefix) is cached. -/
def ensurePendingQueueO (cache : List (String × String)) (qnPre pid wt : String)
    (results : Priority → Option ClientErr) :
    List (String × String) × Except SvcErr String :=
  let id := pid ++ "/" ++ wt
  match lookupA cache id with
  | some np => (cache, .ok np)
  | none =>
    if validIdentifier pid && validIdentifier wt then
      let np := mkNamePrefix qnPre pid wt
      match (PRIORITIES.filterMap results).head? with
      | some e => (cache, .error (.client e))
      | none => (setA cache id np, .ok np)
    else (cache, .error .invalidIdentifier)

/-! ## Association-list and arithmetic helper lemmas -/

theorem lookupA_setA_self {β : Type} (l : List (String × β)) (k : String) (v : β) :
    lookupA (setA l k v) k = some v := by
  induction l with
  | nil => simp [setA, lookupA]
  | cons p rest ih =>
    cases p with
    | mk k0 v0 =>
      by_cases h : k0 = k
      · simp [setA, if_pos h, lookupA, h]
      · simp [setA, if_neg h, lookupA, if_neg h, ih]

theorem lookupA_setA_ne {β : Type} (l : List (String × β)) (k k' : String) (v : β)
    (h : ¬(k = k')) : lookupA (setA l k v) k' = lookupA l k' := by
  induction l with
  | nil => simp [setA, lookupA, if_neg h]
  | cons p rest ih =>
    cases p with
    | mk k0 v0 =>
      by_cases h0 : k0 = k
      · subst h0
        simp [setA, lookupA, if_neg h]
      · simp [setA, if_neg h0, lookupA, ih]

theorem setA_lookup_self {β : Type} (l : List (String × β)) (k : String) (v : β)
    (h : lookupA l k = some v) : setA l k v = l := by
  induction l with
  | nil => simp [lookupA] at h
  | cons p rest ih =>
    cases p with
    | mk k0 v0 =>
      by_cases h0 : k0 = k
      · subst h0
        have hv : v0 = v := by simpa [lookupA] using h
        subst hv
        simp [setA]
      · simp only [lookupA, if_neg h0] at h
        simp [setA, if_neg h0, ih h]

theorem lookupA_eraseA_ne {β : Type} (l : List (String × β)) (k k' : String)
    (h : ¬(k' = k)) : lookupA (eraseA l k') k = lookupA l k := by
  induction l with
  | nil => rfl
  | cons p rest ih =>
    cases p with
    | mk k0 v0 =>
      by_cases h0 : k0 = k'
      · subst h0
        simp [eraseA, lookupA, if_neg h]
      · simp [eraseA, if_neg h0, lookupA, ih]

theorem lookupA_eq_none_of_not_mem {β : Type} (l : List (String × β)) (k : String)
    (h : ¬(k ∈ l.map Prod.fst)) : lookupA l k = none := by
  induction l with
  | nil => rfl
  | cons p rest ih =>
    cases p with
    | mk k0 v0 =>
      simp only [List.map_cons, List.mem_cons] at h
      push_neg at h
      have hne : ¬(k0 = k) := fun he => h.1 he.symm
      simp only [lookupA, if_neg hne, ih h.2]

theorem mem_keys_of_lookupA {β : Type} (l : List (String × β)) (k : String) (v : β)
    (h : lookupA l k = some v) : k ∈ l.map Prod.fst := by
  induction l with
  | nil => simp [lookupA] at h
  | cons p rest ih =>
    cases p with
    | mk k0 v0 =>
      by_cases h0 : k0 = k
      · subst h0; simp
      · simp only [lookupA, if_neg h0] at h
        simp [ih h]

theorem lookupA_isSome_of_mem_keys {β : Type} (l : List (String × β)) (k : String)
    (h : k ∈ l.map Prod.fst) : ∃ v, lookupA l k = some v := by
  induction l with
  | nil => simp at h
  | cons p rest ih =>
    cases p with
    | mk k0 v0 =>
      by_cases h0 : k0 = k
      · subst h0
        exact ⟨v0, by simp [lookupA]⟩
      · simp only [List.map_cons, List.mem_cons] at h
        rcases h with h | h
        · exact absurd h.symm h0
        · obtain ⟨v, hv⟩ := ih h
          exact ⟨v, by simp [lookupA, if_neg h0, hv]⟩

theorem eraseA_sublist {β : Type} (l : List (String × β)) (k : String) :
    (eraseA l k).Sublist l := by
  induction l with
  | nil => simp [eraseA]
  | cons p rest ih =>
    cases p with
    | mk k0 v0 =>
      by_cases h0 : k0 = k
      · simp only [eraseA, if_pos h0]
        exact List.sublist_cons_self _ _
      · simp only [eraseA, if_neg h0]
        exact List.Sublist.cons₂ _ ih

theorem eraseA_keys_nodup {β : Type} (l : List (String × β)) (k : String)
    (h : (l.map Prod.fst).Nodup) : ((eraseA l k).map Prod.fst).Nodup :=
  List.Nodup.sublist (List.Sublist.map Prod.fst (eraseA_sublist l k)) h

theorem eraseA_length {β : Type} (l : List (String × β)) (k : String) (v : β)
    (h : lookupA l k = some v) : (eraseA l k).length + 1 = l.length := by
  induction l with
  | nil => simp [lookupA] at h
  | cons p rest ih =>
    cases p with
    | mk k0 v0 =>
      by_cases h0 : k0 = k
      · simp [eraseA, if_pos h0]
      · simp only [lookupA, if_neg h0] at h
        simp only [eraseA, if_neg h0, List.length_cons]
        rw [← ih h]

theorem lookupA_eraseA_self {β : Type} (l : List (String × β)) (k : String)
    (h : (l.map Prod.fst).Nodup) : lookupA (eraseA l k) k = none := by
  induction l with
  | nil => rfl
  | cons p rest ih =>
    cases p with
    | mk k0 v0 =>
      simp only [List.map_cons, List.nodup_cons] at h
      by_cases h0 : k0 = k
      · subst h0
        simp only [eraseA, if_pos rfl]
        exact lookupA_eq_none_of_not_mem rest k0 h.1
      · simp only [eraseA, if_neg h0, lookupA, if_neg h0]
        exact ih h.2

/-- `secondsTo` waits at least until the target. -/
theorem secondsTo_lower (t r : Int) : t - r ≤ 1000 * secondsTo t r := by
  unfold secondsTo ceilDiv1000
  omega

/-- For a future target, `secondsTo` overshoots it by less than one
second. -/
theorem secondsTo_upper (t r : Int) (h : r < t) : 1000 * secondsTo t r < t - r + 1000 := by
  unfold secondsTo ceilDiv1000
  omega

/-- `secondsTo` never returns zero (it clamps to at least 1). -/
theorem secondsTo_pos (t r : Int) : 1 ≤ secondsTo t r := le_max_right _ 1

/-- Decidable equality for `Except`, so concrete operation results can be
checked by `decide`. -/
def Except.decEq {e a : Type} [DecidableEq e] [DecidableEq a] :
    (x y : Except e a) → Decidable (x = y)
  | .ok x, .ok y =>
    if h : x = y then isTrue (by rw [h]) else isFalse (by intro hc; injection hc; exact h (by assumption))
  | .error x, .error y =>
    if h : x = y then isTrue (by rw [h]) else isFalse (by intro hc; injection hc; exact h (by assumption))
  | .ok _, .error _ => isFalse (by intro hc; exact Except.noConfusion hc)
  | .error _, .ok _ => isFalse (by intro hc; exact Except.noConfusion hc)

instance {e a : Type} [DecidableEq e] [DecidableEq a] : DecidableEq (Except e a) :=
  Except.decEq

/-! ## Claim theorems -/

theorem lastUsedRecent_iff (lu : Option Int) (now : Int) :
    lastUsedRecent lu now = true ↔ ∃ t, lu = some t ∧ now - 82800000 < t := by
  cases lu with
  | none => simp [lastUsedRecent]
  | some t => simp [lastUsedRecent, gt_iff_lt]

/-- C4: `_ensureQueueAndMetadata` issues no client write iff metadata
exists with both identifiers equal and a valid `last_used` within the
last 23 hours; with existing but stale or mismatched metadata it writes
fresh metadata; on a queue-not-found condition (explicit code or 404
status) it creates the queue with fresh metadata; a `QueueAlreadyExists`
failure of that creation is treated as success (no error raised); any
other metadata-read error propagates. -/
theorem C4_ensureQueueAndMetadata (gm : Except ClientErr QueueMetadata)
    (cq : Option ClientErr) (pid wt : String) (now : Int) :
    (EnsureAct.wrote (ensureQueueAndMetadataO gm cq pid wt now) = false ↔
      ∃ md, gm = .ok md ∧ md.provisioner_id = some pid ∧ md.worker_type = some wt ∧
        ∃ lu, md.last_used = some lu ∧ now - 82800000 < lu) ∧
    (∀ md, gm = .ok md →
      ensureQueueAndMetadataO gm cq pid wt now = .noop ∨
      ensureQueueAndMetadataO gm cq pid wt now = .setMeta ⟨some pid, some wt, some now⟩) ∧
    (∀ e, gm = .error e → (e.code = some "QueueNotFound" ∨ e.statusCode = some 404) →
      cq = none →
      ensureQueueAndMetadataO gm cq pid wt now = .created ⟨some pid, some wt, some now⟩) ∧
    (∀ e e2, gm = .error e → (e.code = some "QueueNotFound" ∨ e.statusCode = some 404) →
      cq = some e2 → e2.code = some "QueueAlreadyExists" →
      ensureQueueAndMetadataO gm cq pid wt now = .createdRaced ∧
        EnsureAct.raises (ensureQueueAndMetadataO gm cq pid wt now) = false) ∧
    (∀ e, gm = .error e → ¬(e.code = some "QueueNotFound") → ¬(e.statusCode = some 404) →
      ensureQueueAndMetadataO gm cq pid wt now = .failed e) := by
  refine ⟨?_, ?_, ?_, ?_, ?_⟩
  · constructor
    · intro hw
      cases gm with
      | ok md =>
        unfold ensureQueueAndMetadataO at hw
        dsimp only at hw
        by_cases hc : md.provisioner_id = some pid ∧ md.worker_type = some wt ∧
            lastUsedRecent md.last_used now = true
        · obtain ⟨h1, h2, h3⟩ := hc
          obtain ⟨t, ht, hrec⟩ := (lastUsedRecent_iff md.last_used now).mp h3
          exact ⟨md, rfl, h1, h2, t, ht, hrec⟩
        · rw [if_neg hc] at hw
          simp [EnsureAct.wrote] at hw
      | error e =>
        unfold ensureQueueAndMetadataO at hw
        dsimp only at hw
        by_cases hc : e.code ≠ some "QueueNotFound" ∧ e.statusCode ≠ some 404
        · rw [if_pos hc] at hw
          simp [EnsureAct.wrote] at hw
        · rw [if_neg hc] at hw
          cases cq with
          | none => simp [EnsureAct.wrote] at hw
          | some e2 =>
            dsimp only at hw
            split_ifs at hw <;> simp [EnsureAct.wrote] at hw
    · intro hmd
      obtain ⟨md, hgm, h1, h2, t, ht, hrec⟩ := hmd
      subst hgm
      unfold ensureQueueAndMetadataO
      dsimp only
      rw [if_pos ⟨h1, h2, (lastUsedRecent_iff md.last_used now).mpr ⟨t, ht, hrec⟩⟩]
      rfl
  · intro md hgm
    subst hgm
    unfold ensureQueueAndMetadataO
    dsimp only
    by_cases hc : md.provisioner_id = some pid ∧ md.worker_type = some wt ∧
        lastUsedRecent md.last_used now = true
    · rw [if_pos hc]; exact Or.inl rfl
    · rw [if_neg hc]; exact Or.inr rfl
  · intro e hgm hnf hcq
    subst hgm
    subst hcq
    unfold ensureQueueAndMetadataO
    dsimp only
    rw [if_neg (by
      intro hcon
      rcases hnf with h | h
      · exact hcon.1 h
      · exact hcon.2 h)]
  · intro e e2 hgm hnf hcq hrace
    subst hgm
    subst hcq
    unfold ensureQueueAndMetadataO
    dsimp only
    rw [if_neg (by
      intro hcon
      rcases hnf with h | h
      · exact hcon.1 h
      · exact hcon.2 h)]
    rw [if_neg (by
      intro hcon
      exact hcon hrace)]
    exact ⟨rfl, rfl⟩
  · intro e hgm h1 h2
    subst hgm
    unfold ensureQueueAndMetadataO
    dsimp only
    rw [if_pos ⟨h1, h2⟩]

theorem C4_witness :
    EnsureAct.wrote (ensureQueueAndMetadataO
      (.ok ⟨some "p", some "w", some 1000⟩) none "p" "w" 2000) = false ∧
    ensureQueueAndMetadataO (.error ⟨some "QueueNotFound", some 404⟩)
      (some ⟨some "QueueAlreadyExists", none⟩) "p" "w" 2000 = .createdRaced :=
  ⟨(C4_ensureQueueAndMetadata (.ok ⟨some "p", some "w", some 1000⟩) none "p" "w" 2000).1.mpr
      ⟨⟨some "p", some "w", some 1000⟩, rfl, rfl, rfl, 1000, rfl, by norm_num⟩,
    ((C4_ensureQueueAndMetadata (.error ⟨some "QueueNotFound", some 404⟩)
      (some ⟨some "QueueAlreadyExists", none⟩) "p" "w" 2000).2.2.2.1
      ⟨some "QueueNotFound", some 404⟩ ⟨some "QueueAlreadyExists", none⟩ rfl
      (Or.inl rfl) rfl rfl).1⟩

theorem mem_PRIORITIES (p : Priority) : p ∈ PRIORITIES := by
  cases p <;> simp [PRIORITIES]

/-- C8: over the abstract client, `ensurePendingQueue` on a cache miss
with valid identifiers: if any shard ensure fails, the cache entry for
the key stays evicted and a client error is propagated (a failed or
partial result is never cached); if every shard succeeds, the cached
value is the name prefix determining the full priority-to-queue-name
map, which is also the returned value. -/
theorem C8_ensurePendingQueue (cache : List (String × String)) (qnPre pid wt : String)
    (results : Priority → Option ClientErr)
    (hmiss : lookupA cache (pid ++ "/" ++ wt) = none)
    (hpid : validIdentifier pid = true) (hwt : validIdentifier wt = true) :
    (∀ p e, results p = some e →
      (∃ e2, (ensurePendingQueueO cache qnPre pid wt results).2 = .error (.client e2)) ∧
      lookupA (ensurePendingQueueO cache qnPre pid wt results).1 (pid ++ "/" ++ wt) = none) ∧
    ((∀ p, results p = none) →
      (ensurePendingQueueO cache qnPre pid wt results).2 = .ok (mkNamePrefix qnPre pid wt) ∧
      lookupA (ensurePendingQueueO cache qnPre pid wt results).1 (pid ++ "/" ++ wt) =
        some (mkNamePrefix qnPre pid wt) ∧
      ∀ p : Priority, queueNameFor (mkNamePrefix qnPre pid wt) p =
        mkNamePrefix qnPre pid wt ++ priorityConstant p) := by
  constructor
  · intro p e hre
    have hmem : e ∈ PRIORITIES.filterMap results :=
      List.mem_filterMap.mpr ⟨p, mem_PRIORITIES p, hre⟩
    simp only [ensurePendingQueueO, hmiss]
    rw [if_pos (by rw [hpid, hwt]; rfl)]
    cases hL : (PRIORITIES.filterMap results).head? with
    | none =>
      rw [List.head?_eq_none_iff] at hL
      rw [hL] at hmem
      simp at hmem
    | some e2 =>
      exact ⟨⟨e2, rfl⟩, hmiss⟩
  · intro hall
    have hnil : PRIORITIES.filterMap results = [] :=
      List.filterMap_eq_nil_iff.mpr (fun a _ => hall a)
    simp only [ensurePendingQueueO, hmiss]
    rw [if_pos (by rw [hpid, hwt]; rfl), hnil]
    exact ⟨rfl, lookupA_setA_self cache (pid ++ "/" ++ wt) (mkNamePrefix qnPre pid wt),
      fun p => rfl⟩

theorem C8_witness :
    (ensurePendingQueueO [] "q" "p" "w" (fun _ => none)).2 =
      .ok (mkNamePrefix "q" "p" "w") ∧
    lookupA (ensurePendingQueueO [] "q" "p" "w"
      (fun _ => some ⟨some "ServerBusy", some 503⟩)).1 ("p" ++ "/" ++ "w") = none :=
  ⟨((C8_ensurePendingQueue [] "q" "p" "w" (fun _ => none) rfl (by decide) (by decide)).2
      (fun _ => rfl)).1,
    ((C8_ensurePendingQueue [] "q" "p" "w" (fun _ => some ⟨some "ServerBusy", some 503⟩)
      rfl (by decide) (by decide)).1 Priority.highest ⟨some "ServerBusy", some 503⟩ rfl).2⟩

/-- C9: `putResolvedMessage` raises the resolution-validation assertion
and publishes nothing when the resolution is not one of `completed`,
`failed`, `exception`; for a valid resolution it appends exactly one
message to the resolved queue with TTL 7 days and visibility delay 0. -/
theorem C9_putResolvedMessage (s : SvcState)
    (taskId taskGroupId schedulerId resolution : String) (now : Int)
    (hts : ¬(taskId = "")) (htg : ¬(taskGroupId = "")) (hsc : ¬(schedulerId = ""))
    (hready : s.resolvedQueueReady = true) :
    (¬(resolution = "completed" ∨ resolution = "failed" ∨ resolution = "exception") →
      putResolvedMessage s taskId taskGroupId schedulerId resolution now =
        .error (.assertFail "resolution must be completed, failed or exception")) ∧
    ((resolution = "completed" ∨ resolution = "failed" ∨ resolution = "exception") →
      ∀ q, lookupA s.fake.queues s.resolvedQueue = some q →
        putResolvedMessage s taskId taskGroupId schedulerId resolution now =
          .ok { s with fake := { s.fake with
            queues := setA s.fake.queues s.resolvedQueue (q ++
              [⟨encodeMessageText (resolvedPayload taskId taskGroupId schedulerId resolution),
                s.fake.nextId, none, now + 0 * 1000, now + 7 * 24 * 60 * 60 * 1000⟩]),
            nextId := s.fake.nextId + 1 } }) := by
  have hens : ensureResolvedQueue s = s := by
    unfold ensureResolvedQueue
    rw [if_pos hready]
  constructor
  · intro hr
    unfold putResolvedMessage
    rw [if_neg hts, if_neg htg, if_neg hsc, if_pos hr]
  · intro hr q hq
    unfold putResolvedMessage
    rw [if_neg hts, if_neg htg, if_neg hsc, if_neg (not_not_intro hr), hens]
    unfold svcPutMessage putMessage
    dsimp only
    rw [hq]

def c9state : SvcState :=
  { fake := ⟨[("rq", [])], [("rq", emptyMetadata)], 0⟩
    queues := []
    countPendingCache := []
    claimQueueReady := false
    resolvedQueueReady := true
    deadlineQueueReady := false
    qnPre := "q"
    claimQueue := "cq"
    resolvedQueue := "rq"
    deadlineQueue := "dq"
    deadlineDelay := 600000 }

theorem C9_witness :
    putResolvedMessage c9state "t" "g" "sch" "bogus" 0 =
      .error (.assertFail "resolution must be completed, failed or exception") ∧
    ∃ s2, putResolvedMessage c9state "t" "g" "sch" "completed" 0 = .ok s2 :=
  ⟨(C9_putResolvedMessage c9state "t" "g" "sch" "bogus" 0 (by decide) (by decide)
      (by decide) rfl).1 (by decide),
    ⟨_, (C9_putResolvedMessage c9state "t" "g" "sch" "completed" 0 (by decide) (by decide)
      (by decide) rfl).2 (Or.inl rfl) [] rfl⟩⟩

/-- C10: the in-memory client's `createQueue` never reports
`QueueAlreadyExists`: it unconditionally installs an empty message list
and the given metadata, discarding whatever was stored before; hence
against this client the benign-race branch of `_ensureQueueAndMetadata`
is unreachable (the abstract model instantiated with a fake `getMetadata`
outcome and a succeeding `createQueue` never reaches `createdRaced`, and
never raises). -/
theorem C10_fakeCreateQueue (s : FakeState) (name : String)
    (md : Option QueueMetadata) (pid wt : String) (now : Int) :
    (lookupA (createQueue s name md).queues name = some [] ∧
      lookupA (createQueue s name md).metadata name = some (md.getD emptyMetadata)) ∧
    (∀ q, lookupA s.queues name = some q → q ≠ [] →
      lookupA (createQueue s name md).queues name = some []) ∧
    (¬(ensureQueueAndMetadataO ((getMetadata s name).map Prod.fst) none pid wt now =
        .createdRaced) ∧
      EnsureAct.raises (ensureQueueAndMetadataO ((getMetadata s name).map Prod.fst)
        none pid wt now) = false) := by
  refine ⟨⟨lookupA_setA_self s.queues name [],
    lookupA_setA_self s.metadata name (md.getD emptyMetadata)⟩,
    fun q _ _ => lookupA_setA_self s.queues name [], ?_⟩
  unfold getMetadata
  cases hl : lookupA s.queues name with
  | none =>
    dsimp only [Except.map]
    unfold ensureQueueAndMetadataO
    dsimp only
    rw [if_neg (by
      intro hcon
      exact hcon.1 (show queueNotFoundErr.code = some "QueueNotFound" from rfl))]
    exact ⟨by simp, rfl⟩
  | some q =>
    dsimp only [Except.map]
    unfold ensureQueueAndMetadataO
    dsimp only
    split_ifs
    · exact ⟨by simp, rfl⟩
    · exact ⟨by simp, rfl⟩

theorem C10_witness :
    lookupA (createQueue ⟨[("x", [⟨[ 'a' ], 0, none, 0, 5000⟩])], [("x", emptyMetadata)], 1⟩
      "x" none).queues "x" = some [] :=
  (C10_fakeCreateQueue ⟨[("x", [⟨[ 'a' ], 0, none, 0, 5000⟩])], [("x", emptyMetadata)], 1⟩
    "x" none "p" "w" 0).2.1 [⟨[ 'a' ], 0, none, 0, 5000⟩] rfl (by simp)

/-- The pending-queue state used for the put-pending evaluation: the
name-prefix cache already holds `p/w ↦ Q-` and the medium shard `Q-4`
exists and is empty. -/
def c1state : SvcState :=
  { fake := ⟨[("Q-4", [])], [("Q-4", ⟨some "p", some "w", some 0⟩)], 0⟩
    queues := [("p/w", "Q-")]
    countPendingCache := []
    claimQueueReady := false
    resolvedQueueReady := false
    deadlineQueueReady := false
    qnPre := "q"
    claimQueue := "cq"
    resolvedQueue := "rq"
    deadlineQueue := "dq"
    deadlineDelay := 600000 }

def c1task : TaskRef := ⟨"t1", "p", "w", -5000, .medium⟩

/-- C1: `secondsTo` clamps to at least one second, so the
`timeToDeadline === 0` skip branch of `putPendingMessage` is
unreachable; a run becoming pending 5 seconds after its deadline still
publishes one pending message (here with TTL 1 second), instead of
silently dropping the publish as the code's own comment describes. -/
theorem C1_pastDeadlinePublishes :
    (∀ target relativeTo : Int, 1 ≤ secondsTo target relativeTo) ∧
    secondsTo (-5000) 0 = 1 ∧
    putPendingMessage c1state c1task 0 0 =
      .ok ({ c1state with fake :=
        ⟨[("Q-4", [⟨encodeMessageText (pendingPayload "t1" 0 0), 1, none, 0 + 0 * 1000,
          0 + 1 * 1000⟩])], [("Q-4", ⟨some "p", some "w", some 0⟩)], 2⟩ }, true) :=
  ⟨fun t r => secondsTo_pos t r, by decide, by decide⟩

/-! ## C2: `deleteUnusedWorkerQueues` -/

/-- What one pass of the deletion loop does, by induction over the marked
names: every non-empty queue and every unmarked queue survives untouched,
and the final count is exactly the number of queues removed. -/
theorem gcSweep_spec (marked : List String) : ∀ (fs : FakeState) (cnt : Nat),
    (fs.queues.map Prod.fst).Nodup →
    (∀ n ∈ marked, ∃ q, lookupA fs.queues n = some q) →
    marked.Nodup →
    ∃ fs2 d, gcSweep fs marked cnt = .ok (fs2, cnt + d) ∧
      fs2.queues.length + d = fs.queues.length ∧
      (∀ n q, lookupA fs.queues n = some q → ¬(q = []) → lookupA fs2.queues n = some q) ∧
      (∀ n q, lookupA fs.queues n = some q → ¬(n ∈ marked) →
        lookupA fs2.queues n = some q) := by
  induction marked with
  | nil =>
    intro fs cnt _ _ _
    exact ⟨fs, 0, rfl, rfl, fun n q hq _ => hq, fun n q hq _ => hq⟩
  | cons name rest ih =>
    intro fs cnt hnd hall hmnd
    obtain ⟨q, hq⟩ := hall name (List.mem_cons_self name rest)
    have hname_rest : ¬(name ∈ rest) := (List.nodup_cons.mp hmnd).1
    have hrest_nd : rest.Nodup := (List.nodup_cons.mp hmnd).2
    have hstep : gcSweep fs (name :: rest) cnt =
        (if q.length > 0 then gcSweep fs rest cnt
         else gcSweep (deleteQueue fs name) rest (cnt + 1)) := by
      show (match lookupA fs.queues name with
        | none => (Except.error queueNotFoundErr : Except ClientErr (FakeState × Nat))
        | some q2 =>
          if q2.length > 0 then gcSweep fs rest cnt
          else gcSweep (deleteQueue fs name) rest (cnt + 1)) = _
      rw [hq]
    by_cases hqe : q = []
    · subst hqe
      rw [hstep, if_neg (by simp)]
      have hnd2 : ((deleteQueue fs name).queues.map Prod.fst).Nodup :=
        eraseA_keys_nodup fs.queues name hnd
      have hall2 : ∀ n ∈ rest, ∃ q2, lookupA (deleteQueue fs name).queues n = some q2 := by
        intro n hn
        have hne : ¬(name = n) := fun he => hname_rest (he ▸ hn)
        obtain ⟨q2, hq2⟩ := hall n (List.mem_cons_of_mem name hn)
        exact ⟨q2, by
          show lookupA (eraseA fs.queues name) n = some q2
          rw [lookupA_eraseA_ne fs.queues n name hne, hq2]⟩
      obtain ⟨fs2, d, heq, hlen, hne2, hunm⟩ := ih (deleteQueue fs name) (cnt + 1)
        hnd2 hall2 hrest_nd
      refine ⟨fs2, d + 1, ?_, ?_, ?_, ?_⟩
      · have harith : cnt + 1 + d = cnt + (d + 1) := by omega
        rw [heq, harith]
      · have hlen2 : (deleteQueue fs name).queues.length + 1 = fs.queues.length := by
          show (eraseA fs.queues name).length + 1 = fs.queues.length
          exact eraseA_length fs.queues name [] hq
        omega
      · intro n q2 hq2 hq2ne
        have hne : ¬(name = n) := by
          intro he
          subst he
          rw [hq] at hq2
          exact hq2ne (Option.some.inj hq2).symm
        refine hne2 n q2 ?_ hq2ne
        show lookupA (eraseA fs.queues name) n = some q2
        rw [lookupA_eraseA_ne fs.queues n name hne, hq2]
      · intro n q2 hq2 hnm
        have hne : ¬(name = n) := fun he => hnm (he ▸ List.mem_cons_self name rest)
        refine hunm n q2 ?_ (fun hn => hnm (List.mem_cons_of_mem name hn))
        show lookupA (eraseA fs.queues name) n = some q2
        rw [lookupA_eraseA_ne fs.queues n name hne, hq2]
    · rw [hstep, if_pos (by
        cases q with
        | nil => exact absurd rfl hqe
        | cons a as => simp)]
      have hall2 : ∀ n ∈ rest, ∃ q2, lookupA fs.queues n = some q2 :=
        fun n hn => hall n (List.mem_cons_of_mem name hn)
      obtain ⟨fs2, d, heq, hlen, hne2, hunm⟩ := ih fs cnt hnd hall2 hrest_nd
      exact ⟨fs2, d, heq, hlen, hne2,
        fun n q2 hq2 hnm => hunm n q2 hq2 (fun hn => hnm (List.mem_cons_of_mem name hn))⟩

/-- C2: amended safety of `deleteUnusedWorkerQueues` (lines 504-554): over
any fake state with distinct queue names it returns without error; it never
deletes a non-empty queue; it never deletes a queue whose metadata has
truthy `provisioner_id` and `worker_type` and a valid `last_used` no older
than the 10-day cutoff; and the returned count is exactly the number of
queues deleted.  (The claim's blanket "never deletes a queue with recent
`last_used`" is false: a recent queue with a falsy identifier field is
still deleted, see the counterexample.) -/
theorem C2_deleteUnusedWorkerQueues (fs : FakeState) (now : Int)
    (hnd : (fs.queues.map Prod.fst).Nodup) :
    ∃ fs2 cnt, deleteUnusedWorkerQueues fs now = .ok (fs2, cnt) ∧
      cnt + fs2.queues.length = fs.queues.length ∧
      (∀ n q, lookupA fs.queues n = some q → ¬(q = []) →
        lookupA fs2.queues n = some q) ∧
      (∀ n q md, lookupA fs.queues n = some q →
        lookupA fs.metadata n = some md →
        truthyS md.provisioner_id = true → truthyS md.worker_type = true →
        (∃ lu, md.last_used = some lu ∧ now - 864000000 ≤ lu) →
        lookupA fs2.queues n = some q) := by
  have hkeys : (listQueues fs).map (fun p => p.1) = fs.queues.map Prod.fst := by
    show (fs.queues.map
      (fun p => (p.1, (lookupA fs.metadata p.1).getD emptyMetadata))).map
        (fun p => p.1) = fs.queues.map Prod.fst
    rw [List.map_map]
    rfl
  have hsub : ((((listQueues fs).filter
      (fun p => shouldDeleteMeta p.2 (now - 864000000))).map (fun p => p.1)).Sublist
        ((listQueues fs).map (fun p => p.1))) :=
    List.Sublist.map _ (List.filter_sublist _)
  have hmnd : (((listQueues fs).filter
      (fun p => shouldDeleteMeta p.2 (now - 864000000))).map (fun p => p.1)).Nodup :=
    List.Nodup.sublist (hkeys ▸ hsub) hnd
  have hmem : ∀ n, n ∈ ((listQueues fs).filter
      (fun p => shouldDeleteMeta p.2 (now - 864000000))).map (fun p => p.1) →
      n ∈ fs.queues.map Prod.fst ∧
        shouldDeleteMeta ((lookupA fs.metadata n).getD emptyMetadata)
          (now - 864000000) = true := by
    intro n hn
    rw [List.mem_map] at hn
    obtain ⟨p, hp, hpn⟩ := hn
    rw [List.mem_filter] at hp
    obtain ⟨hpl, hpd⟩ := hp
    rw [listQueues, List.mem_map] at hpl
    obtain ⟨r, hr, hrp⟩ := hpl
    subst hrp
    dsimp only at hpn hpd
    subst hpn
    exact ⟨List.mem_map_of_mem Prod.fst hr, hpd⟩
  have hall : ∀ n ∈ ((listQueues fs).filter
      (fun p => shouldDeleteMeta p.2 (now - 864000000))).map (fun p => p.1),
      ∃ q, lookupA fs.queues n = some q :=
    fun n hn => lookupA_isSome_of_mem_keys fs.queues n (hmem n hn).1
  obtain ⟨fs2, d, heq, hlen, hne, hunm⟩ := gcSweep_spec
    (((listQueues fs).filter
      (fun p => shouldDeleteMeta p.2 (now - 864000000))).map (fun p => p.1))
    fs 0 hnd hall hmnd
  refine ⟨fs2, d, ?_, by omega, hne, ?_⟩
  · show gcSweep fs (((listQueues fs).filter
      (fun p => shouldDeleteMeta p.2 (now - 864000000))).map (fun p => p.1)) 0 =
        Except.ok (fs2, d)
    rw [heq]
    rw [Nat.zero_add]
  · intro n q md hq hmd htp htw hlu
    refine hunm n q hq ?_
    intro hn
    have hdel := (hmem n hn).2
    rw [hmd] at hdel
    simp only [Option.getD_some] at hdel
    obtain ⟨lu, hlus, hrec⟩ := hlu
    rw [shouldDeleteMeta, htp, htw, hlus] at hdel
    simp only [Bool.not_true, Bool.false_or] at hdel
    rw [decide_eq_true_iff] at hdel
    omega

def c2fs : FakeState :=
  ⟨[("x", [])], [("x", ⟨none, some "w", some 25000⟩)], 0⟩

/-- C2 counterexample: a queue whose metadata was `last_used` right now
(well within the 10-day window) but whose `provisioner_id` is falsy is
deleted anyway — the marking condition is a disjunction, not "stale only". -/
theorem C2_recentQueueDeleted :
    deleteUnusedWorkerQueues c2fs 25000 = .ok (⟨[], [], 0⟩, 1) ∧
      ((25000 : Int) - 864000000 ≤ 25000 ∧
        (c2fs.metadata = [("x", ⟨none, some "w", some 25000⟩)] ∧
          c2fs.queues.length = 1)) := by
  constructor
  · decide
  · exact ⟨by decide, rfl, rfl⟩

def c2wfs : FakeState :=
  ⟨[("a", [⟨[ 'm' ], 0, none, 0, 9000⟩]), ("b", []), ("c", [])],
   [("a", ⟨none, none, none⟩), ("b", ⟨some "p", some "w", some 25000⟩),
    ("c", ⟨some "p", some "w", some (-964000000)⟩)], 1⟩

theorem C2_witness :
    ∃ fs2 cnt, deleteUnusedWorkerQueues c2wfs 25000 = .ok (fs2, cnt) ∧
      cnt + fs2.queues.length = c2wfs.queues.length ∧
      (∀ n q, lookupA c2wfs.queues n = some q → ¬(q = []) →
        lookupA fs2.queues n = some q) ∧
      (∀ n q md, lookupA c2wfs.queues n = some q →
        lookupA c2wfs.metadata n = some md →
        truthyS md.provisioner_id = true → truthyS md.worker_type = true →
        (∃ lu, md.last_used = some lu ∧ (25000 : Int) - 864000000 ≤ lu) →
        lookupA fs2.queues n = some q) :=
  C2_deleteUnusedWorkerQueues c2wfs 25000 (by decide)

/-! ## C3: `countPendingMessages` caching -/

/-- C3: amended behaviour of `countPendingMessages` (lines 644-672) when a
cache entry exists.  A fresh entry (at most 20 seconds old) is returned
immediately with no metadata fetch and no state change.  But a stale entry
does not yield the previously known value: the code overwrites
`entry.count` with the refresh promise and then `return await entry.count`
waits on that very promise, so the caller blocks on the metadata fetch and
receives the freshly summed count, which is also what gets cached. -/
theorem C3_countPendingMessages (s : SvcState) (pid wt : String) (now : Int)
    (entry : CountEntry)
    (hlook : lookupA s.countPendingCache (pid ++ "/" ++ wt) = some entry) :
    (¬(now - entry.lastUpdated > 20000) →
      countPendingMessages s pid wt now = .ok (s, entry.count, false)) ∧
    (∀ s1 np, now - entry.lastUpdated > 20000 →
      ensurePendingQueue s pid wt now = .ok (s1, np) →
      countPendingMessages s pid wt now =
        .ok ({ s1 with countPendingCache :=
            (setA s1.countPendingCache (pid ++ "/" ++ wt)
              (CountEntry.mk ((PRIORITIES.map (fun p =>
                ((lookupA s1.fake.queues (queueNameFor np p)).getD []).length)).sum) now)) },
          (PRIORITIES.map (fun p =>
            ((lookupA s1.fake.queues (queueNameFor np p)).getD []).length)).sum, true)) := by
  have hs0 : { s with countPendingCache :=
      (setA s.countPendingCache (pid ++ "/" ++ wt) entry) } = s := by
    rw [setA_lookup_self s.countPendingCache (pid ++ "/" ++ wt) entry hlook]
  constructor
  · intro h
    simp only [countPendingMessages, hlook, Option.getD_some]
    rw [hs0, if_neg h]
  · intro s1 np h hens
    simp only [countPendingMessages, hlook, Option.getD_some]
    rw [hs0, if_pos h, hens]

/-- A service state with a stale pending-count cache entry `(5, 0)` for
`p/w`, a warm name-prefix cache, and seven existing shard queues of which
`Q-7` holds two messages. -/
def c3state : SvcState :=
  { fake := ⟨[("Q-7", [⟨[ 'm' ], 0, none, 0, 9000⟩, ⟨[ 'm' ], 1, none, 0, 9000⟩]),
      ("Q-6", []), ("Q-5", []), ("Q-4", []), ("Q-3", []), ("Q-2", []), ("Q-1", [])],
      [], 2⟩
    queues := [("p/w", "Q-")]
    countPendingCache := [("p/w", ⟨5, 0⟩)]
    claimQueueReady := false
    resolvedQueueReady := false
    deadlineQueueReady := false
    qnPre := "q"
    claimQueue := "cq"
    resolvedQueue := "rq"
    deadlineQueue := "dq"
    deadlineDelay := 600000 }

/-- C3 counterexample: with the cached count 5 stale (20 s window elapsed),
the caller does not receive the previously known value 5 — it blocks on the
refresh and receives the fresh sum 2 of the shard message counts. -/
theorem C3_staleCallerGetsFreshValue :
    lookupA c3state.countPendingCache "p/w" = some ⟨5, 0⟩ ∧
    (25000 : Int) - 0 > 20000 ∧
    countPendingMessages c3state "p" "w" 25000 =
      .ok ({ c3state with countPendingCache := [("p/w", ⟨2, 25000⟩)] }, 2, true) ∧
    ¬((2 : Nat) = 5) := by
  refine ⟨rfl, by decide, ?_, by decide⟩
  decide

/-- The same state with a fresh cache entry `(5, 10000)`. -/
def c3wstate : SvcState :=
  { c3state with countPendingCache := [("p/w", ⟨5, 10000⟩)] }

theorem C3_witness :
    countPendingMessages c3wstate "p" "w" 25000 = .ok (c3wstate, 5, false) :=
  (C3_countPendingMessages c3wstate "p" "w" 25000 ⟨5, 10000⟩ rfl).1 (by decide)

/-! ## C5: `pendingQueues` / `pendingPoll` -/

theorem getMessagesAux_len (now vis : Int) (target : Nat) :
    ∀ (q : List FakeMsg) (collected ctr : Nat), collected < target →
      (getMessagesAux now vis target q collected ctr).2.1.length + collected ≤ target := by
  intro q
  induction q with
  | nil =>
    intro collected ctr h
    simp only [getMessagesAux, List.length_nil]
    omega
  | cons m ms ih =>
    intro collected ctr h
    simp only [getMessagesAux]
    split_ifs with h1 h2
    · simp only [List.length_singleton]
      omega
    · dsimp only [List.length_cons]
      have := ih (collected + 1) (ctr + 1) (by omega)
      omega
    · dsimp only
      exact ih collected ctr h

theorem getMessagesAux_lease (now vis : Int) (target : Nat) :
    ∀ (q : List FakeMsg) (collected ctr : Nat),
      ∀ g ∈ (getMessagesAux now vis target q collected ctr).2.1,
        ∃ m ∈ (getMessagesAux now vis target q collected ctr).1,
          m.messageId = g.messageId ∧ m.visibleAfter = now + vis * 1000 ∧
            m.popReceipt = some g.popReceipt ∧ m.messageText = g.messageText := by
  intro q
  induction q with
  | nil =>
    intro collected ctr g hg
    simp only [getMessagesAux, List.not_mem_nil] at hg
  | cons m ms ih =>
    intro collected ctr g hg
    simp only [getMessagesAux] at hg ⊢
    split_ifs at hg ⊢ with h1 h2
    · dsimp only at hg ⊢
      rw [List.mem_singleton] at hg
      subst hg
      exact ⟨{ m with visibleAfter := now + vis * 1000, popReceipt := some ctr },
        List.mem_cons_self _ _, rfl, rfl, rfl, rfl⟩
    · dsimp only at hg ⊢
      rw [List.mem_cons] at hg
      cases hg with
      | inl hg =>
        subst hg
        exact ⟨{ m with visibleAfter := now + vis * 1000, popReceipt := some ctr },
          List.mem_cons_self _ _, rfl, rfl, rfl, rfl⟩
      | inr hg =>
        obtain ⟨m2, hm2, hprop⟩ := ih (collected + 1) (ctr + 1) g hg
        exact ⟨m2, List.mem_cons_of_mem _ hm2, hprop⟩
    · dsimp only at hg ⊢
      obtain ⟨m2, hm2, hprop⟩ := ih collected ctr g hg
      exact ⟨m2, List.mem_cons_of_mem _ hm2, hprop⟩

/-- C5: amended behaviour of `pendingQueues` (lines 614-641).  It yields
exactly the 7 shard queue names in `PRIORITIES` order (highest to lowest);
each poll over a shard takes a 300-second visibility lease and maps each
fetched message to its `{taskId, runId, hintId}` payload fields plus the
remove/release handle data.  The `min(count, 32)` bound, however, holds
only for `count ≥ 1`: the fake breaks the collection loop after pushing,
comparing `rv.length === numberOfMessages`, so `poll(0)` drains every
visible message instead of fetching none (see the counterexample). -/
theorem C5_pendingQueues (s : SvcState) (pid wt : String) (now : Int)
    (s1 : SvcState) (np : String)
    (hens : ensurePendingQueue s pid wt now = .ok (s1, np)) :
    pendingQueues s pid wt now = .ok (s1,
      [queueNameFor np .highest, queueNameFor np .veryHigh, queueNameFor np .high,
       queueNameFor np .medium, queueNameFor np .low, queueNameFor np .veryLow,
       queueNameFor np .lowest]) ∧
    (∀ (queue : String) (count : Nat) (fs : FakeState) (ms : List PendingRec)
        (fs2 : FakeState), 1 ≤ count →
      pendingPoll fs queue count now = .ok (ms, fs2) →
      ms.length ≤ min count 32 ∧
      (∀ r ∈ ms, r.taskId = jsonGet r.msg.payload "taskId" ∧
        r.runId = jsonGet r.msg.payload "runId" ∧
        r.hintId = jsonGet r.msg.payload "hintId" ∧
        r.msg.msgQueue = queue ∧
        ∃ q2, lookupA fs2.queues queue = some q2 ∧
          ∃ m ∈ q2, m.messageId = r.msg.msgId ∧
            m.visibleAfter = now + 300 * 1000 ∧
            m.popReceipt = some r.msg.msgReceipt)) := by
  constructor
  · unfold pendingQueues
    rw [hens]
    rfl
  · intro queue count fs ms fs2 hcnt hpoll
    unfold pendingPoll at hpoll
    cases hG : svcGetMessages fs queue (5 * 60) (min count 32) now with
    | error e =>
      rw [hG] at hpoll
      exact Except.noConfusion hpoll
    | ok pr =>
      obtain ⟨msRaw, fs2a⟩ := pr
      rw [hG] at hpoll
      dsimp only at hpoll
      rw [Except.ok.injEq, Prod.mk.injEq] at hpoll
      obtain ⟨hms, hfs⟩ := hpoll
      unfold svcGetMessages at hG
      cases hGM : getMessages fs queue (5 * 60) (min count 32) now with
      | error e =>
        rw [hGM] at hG
        exact Except.noConfusion hG
      | ok pg =>
        obtain ⟨rv, fsg⟩ := pg
        rw [hGM] at hG
        dsimp only at hG
        rw [Except.ok.injEq, Prod.mk.injEq] at hG
        obtain ⟨hraw, hfsg⟩ := hG
        unfold getMessages at hGM
        cases hq : lookupA fs.queues queue with
        | none =>
          rw [hq] at hGM
          exact Except.noConfusion hGM
        | some q =>
          rw [hq] at hGM
          dsimp only at hGM
          rw [Except.ok.injEq, Prod.mk.injEq] at hGM
          obtain ⟨hrv, hfsq⟩ := hGM
          subst hfs
          subst hms
          subst hraw
          subst hrv
          subst hfsg
          subst hfsq
          constructor
          · simp only [List.length_map]
            have hlen := getMessagesAux_len now (5 * 60) (min count 32) q 0 fs.nextId
              (by omega)
            omega
          · intro r hr
            simp only [List.mem_map] at hr
            obtain ⟨sm, ⟨g, hg, hgsm⟩, hsmr⟩ := hr
            subst hgsm
            subst hsmr
            refine ⟨rfl, rfl, rfl, rfl, ?_⟩
            refine ⟨(getMessagesAux now (5 * 60) (min count 32) q 0 fs.nextId).1, ?_, ?_⟩
            · exact lookupA_setA_self fs.queues queue _
            · obtain ⟨m, hm, hmid, hvis, hpop, _⟩ :=
                getMessagesAux_lease now (5 * 60) (min count 32) q 0 fs.nextId g hg
              refine ⟨m, hm, hmid, ?_, hpop⟩
              rw [hvis]
              norm_num

/-- A fake state with a single queue `P` holding one visible message. -/
def c5fs : FakeState :=
  ⟨[("P", [⟨encodeMessageText (Json.str "x"), 0, none, -1, 9000⟩])], [], 1⟩

/-- C5 counterexample: `poll(0)` is not bounded by `min(0, 32) = 0`.  The
fake's collection loop compares `rv.length === numberOfMessages` only
after pushing, so a target of 0 never matches and every visible message is
drained: polling the one-message queue with count 0 returns 1 message. -/
theorem C5_pollZeroDrains :
    (pendingPoll c5fs "P" 0 0).map (fun r => r.1.length) = .ok 1 ∧
      min 0 32 = 0 := by
  exact ⟨rfl, rfl⟩

/-- A service state with a warm pending-queue cache for `p/w`. -/
def c5state : SvcState :=
  { fake := ⟨[], [], 0⟩
    queues := [("p/w", "Q-")]
    countPendingCache := []
    claimQueueReady := false
    resolvedQueueReady := false
    deadlineQueueReady := false
    qnPre := "q"
    claimQueue := "cq"
    resolvedQueue := "rq"
    deadlineQueue := "dq"
    deadlineDelay := 600000 }

theorem C5_witness :
    pendingQueues c5state "p" "w" 0 = .ok (c5state,
      [queueNameFor "Q-" .highest, queueNameFor "Q-" .veryHigh, queueNameFor "Q-" .high,
       queueNameFor "Q-" .medium, queueNameFor "Q-" .low, queueNameFor "Q-" .veryLow,
       queueNameFor "Q-" .lowest]) :=
  (C5_pendingQueues c5state "p" "w" 0 c5state "Q-" rfl).1

/-! ## C6: publish / fetch / remove / release round-trip -/

/-- One visible message in the queue is always collected, whatever the
requested count: it gets the new visibility time and the fresh receipt. -/
theorem getMessagesAux_one (now vis : Int) (target : Nat) (m : FakeMsg) (ctr : Nat)
    (hv : now > m.visibleAfter ∧ now ≤ m.expiresAfter) :
    getMessagesAux now vis target [m] 0 ctr =
      ([{ m with visibleAfter := now + vis * 1000, popReceipt := some ctr }],
        [⟨m.messageText, m.messageId, ctr⟩], ctr + 1) := by
  simp only [getMessagesAux]
  rw [if_pos hv]
  by_cases ht : 0 + 1 = target
  · rw [if_pos ht]
  · rw [if_neg ht]

theorem getMessagesAux_one_invisible (now vis : Int) (target : Nat) (m : FakeMsg)
    (ctr : Nat) (hv : ¬(now > m.visibleAfter ∧ now ≤ m.expiresAfter)) :
    getMessagesAux now vis target [m] 0 ctr = ([m], [], ctr) := by
  simp only [getMessagesAux]
  rw [if_neg hv]

/-- Fetching from an empty queue returns nothing and leaves the state
untouched. -/
theorem svcGetMessages_empty (fs : FakeState) (queue : String)
    (hq : lookupA fs.queues queue = some []) (tnow vis : Int) (cnt : Nat) :
    svcGetMessages fs queue vis cnt tnow = .ok ([], fs) := by
  unfold svcGetMessages getMessages
  rw [hq]
  dsimp only
  simp only [getMessagesAux]
  rw [setA_lookup_self fs.queues queue [] hq]
  rfl

/-- C6: the publish/fetch round-trip over the in-memory client (lines
138-171 and 753-775).  A payload `X` published with `_putMessage` into an
empty queue and fetched in the visibility window decodes back to `X`
through the base64/JSON round-trip; `remove()` deletes the message so any
later fetch at any time returns nothing; `release()` (zero visibility
timeout) makes it immediately visible, so the next fetch returns payload
`X` again. -/
theorem C6_messageRoundTrip (X : Json) (fs : FakeState) (queue : String)
    (now ttl t1 t2 : Int)
    (hq : lookupA fs.queues queue = some [])
    (h1 : now < t1) (h2 : t1 ≤ now + ttl * 1000)
    (h3 : t1 < t2) (h4 : t2 ≤ now + ttl * 1000) :
    ∃ fs1, svcPutMessage fs queue X 0 ttl now = .ok fs1 ∧
    ∃ m fs2, svcGetMessages fs1 queue 300 1 t1 = .ok ([m], fs2) ∧
      m.payload = some X ∧
      (∃ fs3, svcRemove fs2 m = .ok fs3 ∧ lookupA fs3.queues queue = some [] ∧
        (∀ (t3 vis : Int) (cnt : Nat),
          svcGetMessages fs3 queue vis cnt t3 = .ok ([], fs3))) ∧
      (∃ fs4, svcRelease fs2 m t1 = .ok fs4 ∧
        ∃ m2 fs5, svcGetMessages fs4 queue 300 1 t2 = .ok ([m2], fs5) ∧
          m2.payload = some X) := by
  refine ⟨{ fs with
      queues := (setA fs.queues queue [⟨encodeMessageText X, fs.nextId, none,
        now + 0 * 1000, now + ttl * 1000⟩])
      nextId := fs.nextId + 1 }, ?_, ?_⟩
  · unfold svcPutMessage putMessage
    rw [hq]
    rfl
  · have hq1 : lookupA (setA fs.queues queue [(⟨encodeMessageText X, fs.nextId, none,
        now + 0 * 1000, now + ttl * 1000⟩ : FakeMsg)]) queue =
        some [⟨encodeMessageText X, fs.nextId, none, now + 0 * 1000, now + ttl * 1000⟩] :=
      lookupA_setA_self fs.queues queue _
    refine ⟨⟨decodeMessageText (encodeMessageText X), queue, fs.nextId, fs.nextId + 1,
        encodeMessageText X⟩,
      { fs with
        queues := (setA (setA fs.queues queue [⟨encodeMessageText X, fs.nextId, none,
          now + 0 * 1000, now + ttl * 1000⟩]) queue [⟨encodeMessageText X, fs.nextId,
          some (fs.nextId + 1), t1 + 300 * 1000, now + ttl * 1000⟩])
        nextId := fs.nextId + 1 + 1 }, ?_, decodeMessageText_encode X, ?_, ?_⟩
    · unfold svcGetMessages getMessages
      dsimp only
      rw [hq1]
      dsimp only
      rw [getMessagesAux_one t1 300 1 _ (fs.nextId + 1)
        ⟨show t1 > now + 0 * 1000 by omega, show t1 ≤ now + ttl * 1000 from h2⟩]
      rfl
    · have hq2 : lookupA (setA (setA fs.queues queue [(⟨encodeMessageText X, fs.nextId,
          none, now + 0 * 1000, now + ttl * 1000⟩ : FakeMsg)]) queue
            [(⟨encodeMessageText X, fs.nextId, some (fs.nextId + 1), t1 + 300 * 1000,
              now + ttl * 1000⟩ : FakeMsg)]) queue =
          some [⟨encodeMessageText X, fs.nextId, some (fs.nextId + 1), t1 + 300 * 1000,
            now + ttl * 1000⟩] :=
        lookupA_setA_self _ queue _
      refine ⟨{ fs with
          queues := (setA (setA (setA fs.queues queue [⟨encodeMessageText X, fs.nextId,
            none, now + 0 * 1000, now + ttl * 1000⟩]) queue [⟨encodeMessageText X,
            fs.nextId, some (fs.nextId + 1), t1 + 300 * 1000, now + ttl * 1000⟩]) queue [])
          nextId := fs.nextId + 1 + 1 }, ?_, ?_, ?_⟩
      · unfold svcRemove deleteMessage
        dsimp only
        rw [hq2]
        dsimp only
        simp only [deleteMessageAux]
        simp only [if_true]
      · exact lookupA_setA_self _ queue _
      · intro t3 vis cnt
        exact svcGetMessages_empty _ queue (lookupA_setA_self _ queue _) t3 vis cnt
    · have hq2 : lookupA (setA (setA fs.queues queue [(⟨encodeMessageText X, fs.nextId,
          none, now + 0 * 1000, now + ttl * 1000⟩ : FakeMsg)]) queue
            [(⟨encodeMessageText X, fs.nextId, some (fs.nextId + 1), t1 + 300 * 1000,
              now + ttl * 1000⟩ : FakeMsg)]) queue =
          some [⟨encodeMessageText X, fs.nextId, some (fs.nextId + 1), t1 + 300 * 1000,
            now + ttl * 1000⟩] :=
        lookupA_setA_self _ queue _
      refine ⟨{ fs with
          queues := (setA (setA (setA fs.queues queue [⟨encodeMessageText X, fs.nextId,
            none, now + 0 * 1000, now + ttl * 1000⟩]) queue [⟨encodeMessageText X,
            fs.nextId, some (fs.nextId + 1), t1 + 300 * 1000, now + ttl * 1000⟩]) queue
            [⟨encodeMessageText X, fs.nextId, some (fs.nextId + 1), t1 + 0 * 1000,
              now + ttl * 1000⟩])
          nextId := fs.nextId + 1 + 1 }, ?_, ?_⟩
      · unfold svcRelease updateMessage
        dsimp only
        rw [hq2]
        dsimp only
        simp only [updateMessageAux]
        simp only [if_true]
        rfl
      · have hq3 : lookupA (setA (setA (setA fs.queues queue [(⟨encodeMessageText X,
            fs.nextId, none, now + 0 * 1000, now + ttl * 1000⟩ : FakeMsg)]) queue
              [(⟨encodeMessageText X, fs.nextId, some (fs.nextId + 1), t1 + 300 * 1000,
                now + ttl * 1000⟩ : FakeMsg)]) queue
              [(⟨encodeMessageText X, fs.nextId, some (fs.nextId + 1), t1 + 0 * 1000,
                now + ttl * 1000⟩ : FakeMsg)]) queue =
            some [⟨encodeMessageText X, fs.nextId, some (fs.nextId + 1), t1 + 0 * 1000,
              now + ttl * 1000⟩] :=
          lookupA_setA_self _ queue _
        refine ⟨⟨decodeMessageText (encodeMessageText X), queue, fs.nextId,
          fs.nextId + 1 + 1, encodeMessageText X⟩,
          { fs with
            queues := (setA (setA (setA (setA fs.queues queue [⟨encodeMessageText X,
              fs.nextId, none, now + 0 * 1000, now + ttl * 1000⟩]) queue
              [⟨encodeMessageText X, fs.nextId, some (fs.nextId + 1), t1 + 300 * 1000,
                now + ttl * 1000⟩]) queue [⟨encodeMessageText X, fs.nextId,
                some (fs.nextId + 1), t1 + 0 * 1000, now + ttl * 1000⟩]) queue
              [⟨encodeMessageText X, fs.nextId, some (fs.nextId + 1 + 1), t2 + 300 * 1000,
                now + ttl * 1000⟩])
            nextId := fs.nextId + 1 + 1 + 1 }, ?_, decodeMessageText_encode X⟩
        unfold svcGetMessages getMessages
        dsimp only
        rw [hq3]
        dsimp only
        rw [getMessagesAux_one t2 300 1 _ (fs.nextId + 1 + 1)
          ⟨show t2 > t1 + 0 * 1000 by omega, show t2 ≤ now + ttl * 1000 from h4⟩]
        rfl

theorem C6_witness :
    ∃ fs1, svcPutMessage ⟨[("P", [])], [], 0⟩ "P" (Json.str "x") 0 7 0 = .ok fs1 ∧
    ∃ m fs2, svcGetMessages fs1 "P" 300 1 1000 = .ok ([m], fs2) ∧
      m.payload = some (Json.str "x") ∧
      (∃ fs3, svcRemove fs2 m = .ok fs3 ∧ lookupA fs3.queues "P" = some [] ∧
        (∀ (t3 vis : Int) (cnt : Nat),
          svcGetMessages fs3 "P" vis cnt t3 = .ok ([], fs3))) ∧
      (∃ fs4, svcRelease fs2 m 1000 = .ok fs4 ∧
        ∃ m2 fs5, svcGetMessages fs4 "P" 300 1 2000 = .ok ([m2], fs5) ∧
          m2.payload = some (Json.str "x")) :=
  C6_messageRoundTrip (Json.str "x") ⟨[("P", [])], [], 0⟩ "P" 0 7 1000 2000 rfl
    (by decide) (by decide) (by decide) (by decide)

/-! ## C7: visibility gating of claim and deadline messages -/

theorem putClaim_gate (s : SvcState) (taskId : String) (runId : Nat)
    (takenUntil now : Int)
    (htask : ¬(taskId = ""))
    (hcr : s.claimQueueReady = true)
    (hcq : lookupA s.fake.queues s.claimQueue = some [])
    (htu : now < takenUntil) :
    ∃ s2, putClaimMessage s taskId runId takenUntil now = .ok s2 ∧
      (∀ tp, tp < takenUntil → pollClaimQueue s2 tp = .ok ([], s2)) ∧
      (∀ tp, takenUntil + 1000 ≤ tp → tp ≤ now + 604800000 →
        ∃ r s3, pollClaimQueue s2 tp = .ok ([r], s3) ∧
          r.taskId = some (.str taskId) ∧ r.runId = some (.num runId) ∧
          r.takenUntil = some takenUntil) := by
  have hens : ensureClaimQueue s = s := by
    unfold ensureClaimQueue
    rw [if_pos hcr]
  refine ⟨{ s with fake := { s.fake with
      queues := (setA s.fake.queues s.claimQueue
        [⟨encodeMessageText (claimPayload taskId runId takenUntil), s.fake.nextId, none,
          now + secondsTo takenUntil now * 1000, now + (7 * 24 * 60 * 60) * 1000⟩])
      nextId := s.fake.nextId + 1 } }, ?_, ?_, ?_⟩
  · unfold putClaimMessage
    rw [if_neg htask]
    dsimp only
    rw [hens]
    unfold svcPutMessage putMessage
    rw [hcq]
    rfl
  · intro tp htp
    have hl := secondsTo_lower takenUntil now
    have hinv : ¬(tp > now + secondsTo takenUntil now * 1000 ∧
        tp ≤ now + (7 * 24 * 60 * 60) * 1000) := by
      intro hx
      have hv := hx.1
      omega
    unfold pollClaimQueue
    rw [show ensureClaimQueue { s with fake := { s.fake with
        queues := (setA s.fake.queues s.claimQueue
          [⟨encodeMessageText (claimPayload taskId runId takenUntil), s.fake.nextId, none,
            now + secondsTo takenUntil now * 1000, now + (7 * 24 * 60 * 60) * 1000⟩])
        nextId := s.fake.nextId + 1 } } = { s with fake := { s.fake with
        queues := (setA s.fake.queues s.claimQueue
          [⟨encodeMessageText (claimPayload taskId runId takenUntil), s.fake.nextId, none,
            now + secondsTo takenUntil now * 1000, now + (7 * 24 * 60 * 60) * 1000⟩])
        nextId := s.fake.nextId + 1 } } from by
      unfold ensureClaimQueue
      rw [if_pos hcr]]
    dsimp only
    unfold svcGetMessages getMessages
    dsimp only
    rw [lookupA_setA_self s.fake.queues s.claimQueue _]
    dsimp only
    rw [getMessagesAux_one_invisible tp (10 * 60) 32 _ _ hinv]
    rw [setA_lookup_self _ s.claimQueue _ (lookupA_setA_self s.fake.queues s.claimQueue _)]
    rfl
  · intro tp htp1 htp2
    have hu := secondsTo_upper takenUntil now htu
    have hvis : tp > now + secondsTo takenUntil now * 1000 ∧
        tp ≤ now + (7 * 24 * 60 * 60) * 1000 := by
      constructor
      · omega
      · omega
    refine ⟨⟨jsonGet (decodeMessageText (encodeMessageText
        (claimPayload taskId runId takenUntil))) "taskId",
      jsonGet (decodeMessageText (encodeMessageText
        (claimPayload taskId runId takenUntil))) "runId",
      jsonDate (jsonGet (decodeMessageText (encodeMessageText
        (claimPayload taskId runId takenUntil))) "takenUntil"),
      ⟨decodeMessageText (encodeMessageText (claimPayload taskId runId takenUntil)),
        s.claimQueue, s.fake.nextId, s.fake.nextId + 1,
        encodeMessageText (claimPayload taskId runId takenUntil)⟩⟩,
      { s with fake := { s.fake with
        queues := (setA (setA s.fake.queues s.claimQueue
          [⟨encodeMessageText (claimPayload taskId runId takenUntil), s.fake.nextId, none,
            now + secondsTo takenUntil now * 1000, now + (7 * 24 * 60 * 60) * 1000⟩])
          s.claimQueue
          [⟨encodeMessageText (claimPayload taskId runId takenUntil), s.fake.nextId,
            some (s.fake.nextId + 1), tp + (10 * 60) * 1000,
            now + (7 * 24 * 60 * 60) * 1000⟩])
        nextId := s.fake.nextId + 1 + 1 } }, ?_, ?_, ?_, ?_⟩
    · unfold pollClaimQueue
      rw [show ensureClaimQueue { s with fake := { s.fake with
          queues := (setA s.fake.queues s.claimQueue
            [⟨encodeMessageText (claimPayload taskId runId takenUntil), s.fake.nextId, none,
              now + secondsTo takenUntil now * 1000, now + (7 * 24 * 60 * 60) * 1000⟩])
          nextId := s.fake.nextId + 1 } } = { s with fake := { s.fake with
          queues := (setA s.fake.queues s.claimQueue
            [⟨encodeMessageText (claimPayload taskId runId takenUntil), s.fake.nextId, none,
              now + secondsTo takenUntil now * 1000, now + (7 * 24 * 60 * 60) * 1000⟩])
          nextId := s.fake.nextId + 1 } } from by
        unfold ensureClaimQueue
        rw [if_pos hcr]]
      dsimp only
      unfold svcGetMessages getMessages
      dsimp only
      rw [lookupA_setA_self s.fake.queues s.claimQueue _]
      dsimp only
      rw [getMessagesAux_one tp (10 * 60) 32 _ _ hvis]
      rfl
    · show jsonGet (decodeMessageText (encodeMessageText
        (claimPayload taskId runId takenUntil))) "taskId" = some (.str taskId)
      rw [decodeMessageText_encode]
      rfl
    · show jsonGet (decodeMessageText (encodeMessageText
        (claimPayload taskId runId takenUntil))) "runId" = some (.num runId)
      rw [decodeMessageText_encode]
      rfl
    · show jsonDate (jsonGet (decodeMessageText (encodeMessageText
        (claimPayload taskId runId takenUntil))) "takenUntil") = some takenUntil
      rw [decodeMessageText_encode]
      rfl

theorem putDeadline_gate (s : SvcState) (taskId taskGroupId schedulerId : String)
    (deadline now : Int)
    (htask : ¬(taskId = "")) (htg : ¬(taskGroupId = "")) (hsch : ¬(schedulerId = ""))
    (hdr : s.deadlineQueueReady = true)
    (hdq : lookupA s.fake.queues s.deadlineQueue = some [])
    (hdl : now < deadline) (hdd : 0 ≤ s.deadlineDelay) :
    ∃ s2, putDeadlineMessage s taskId taskGroupId schedulerId deadline now = .ok s2 ∧
      (∀ tp, tp < deadline → pollDeadlineQueue s2 tp = .ok ([], s2)) ∧
      (∀ tp, deadline + 1000 + 1000 * (s.deadlineDelay / 1000) ≤ tp →
        tp ≤ now + 604800000 →
        ∃ r s3, pollDeadlineQueue s2 tp = .ok ([r], s3) ∧
          r.taskId = some (.str taskId) ∧ r.taskGroupId = some (.str taskGroupId) ∧
          r.schedulerId = some (.str schedulerId) ∧ r.deadline = some deadline) := by
  have hdd2 : 0 ≤ s.deadlineDelay / 1000 := Int.ediv_nonneg hdd (by omega)
  refine ⟨{ s with fake := { s.fake with
      queues := (setA s.fake.queues s.deadlineQueue
        [⟨encodeMessageText (deadlinePayload taskId taskGroupId schedulerId deadline),
          s.fake.nextId, none,
          now + (secondsTo deadline now + s.deadlineDelay / 1000) * 1000,
          now + (7 * 24 * 60 * 60) * 1000⟩])
      nextId := s.fake.nextId + 1 } }, ?_, ?_, ?_⟩
  · unfold putDeadlineMessage
    rw [if_neg htask, if_neg htg, if_neg hsch]
    dsimp only
    rw [show ensureDeadlineQueue s = s from by
      unfold ensureDeadlineQueue
      rw [if_pos hdr]]
    unfold svcPutMessage putMessage
    rw [hdq]
    rfl
  · intro tp htp
    have hl := secondsTo_lower deadline now
    have hinv : ¬(tp > now + (secondsTo deadline now + s.deadlineDelay / 1000) * 1000 ∧
        tp ≤ now + (7 * 24 * 60 * 60) * 1000) := by
      intro hx
      have hv := hx.1
      omega
    unfold pollDeadlineQueue
    rw [show ensureDeadlineQueue { s with fake := { s.fake with
        queues := (setA s.fake.queues s.deadlineQueue
          [⟨encodeMessageText (deadlinePayload taskId taskGroupId schedulerId deadline),
            s.fake.nextId, none,
            now + (secondsTo deadline now + s.deadlineDelay / 1000) * 1000,
            now + (7 * 24 * 60 * 60) * 1000⟩])
        nextId := s.fake.nextId + 1 } } = { s with fake := { s.fake with
        queues := (setA s.fake.queues s.deadlineQueue
          [⟨encodeMessageText (deadlinePayload taskId taskGroupId schedulerId deadline),
            s.fake.nextId, none,
            now + (secondsTo deadline now + s.deadlineDelay / 1000) * 1000,
            now + (7 * 24 * 60 * 60) * 1000⟩])
        nextId := s.fake.nextId + 1 } } from by
      unfold ensureDeadlineQueue
      rw [if_pos hdr]]
    dsimp only
    unfold svcGetMessages getMessages
    dsimp only
    rw [lookupA_setA_self s.fake.queues s.deadlineQueue _]
    dsimp only
    rw [getMessagesAux_one_invisible tp (10 * 60) 32 _ _ hinv]
    rw [setA_lookup_self _ s.deadlineQueue _
      (lookupA_setA_self s.fake.queues s.deadlineQueue _)]
    rfl
  · intro tp htp1 htp2
    have hu := secondsTo_upper deadline now hdl
    have hvis : tp > now + (secondsTo deadline now + s.deadlineDelay / 1000) * 1000 ∧
        tp ≤ now + (7 * 24 * 60 * 60) * 1000 := by
      constructor
      · omega
      · omega
    refine ⟨⟨jsonGet (decodeMessageText (encodeMessageText
        (deadlinePayload taskId taskGroupId schedulerId deadline))) "taskId",
      jsonGet (decodeMessageText (encodeMessageText
        (deadlinePayload taskId taskGroupId schedulerId deadline))) "taskGroupId",
      jsonGet (decodeMessageText (encodeMessageText
        (deadlinePayload taskId taskGroupId schedulerId deadline))) "schedulerId",
      jsonDate (jsonGet (decodeMessageText (encodeMessageText
        (deadlinePayload taskId taskGroupId schedulerId deadline))) "deadline"),
      ⟨decodeMessageText (encodeMessageText
          (deadlinePayload taskId taskGroupId schedulerId deadline)),
        s.deadlineQueue, s.fake.nextId, s.fake.nextId + 1,
        encodeMessageText (deadlinePayload taskId taskGroupId schedulerId deadline)⟩⟩,
      { s with fake := { s.fake with
        queues := (setA (setA s.fake.queues s.deadlineQueue
          [⟨encodeMessageText (deadlinePayload taskId taskGroupId schedulerId deadline),
            s.fake.nextId, none,
            now + (secondsTo deadline now + s.deadlineDelay / 1000) * 1000,
            now + (7 * 24 * 60 * 60) * 1000⟩])
          s.deadlineQueue
          [⟨encodeMessageText (deadlinePayload taskId taskGroupId schedulerId deadline),
            s.fake.nextId, some (s.fake.nextId + 1), tp + (10 * 60) * 1000,
            now + (7 * 24 * 60 * 60) * 1000⟩])
        nextId := s.fake.nextId + 1 + 1 } }, ?_, ?_, ?_, ?_, ?_⟩
    · unfold pollDeadlineQueue
      rw [show ensureDeadlineQueue { s with fake := { s.fake with
          queues := (setA s.fake.queues s.deadlineQueue
            [⟨encodeMessageText (deadlinePayload taskId taskGroupId schedulerId deadline),
              s.fake.nextId, none,
              now + (secondsTo deadline now + s.deadlineDelay / 1000) * 1000,
              now + (7 * 24 * 60 * 60) * 1000⟩])
          nextId := s.fake.nextId + 1 } } = { s with fake := { s.fake with
          queues := (setA s.fake.queues s.deadlineQueue
            [⟨encodeMessageText (deadlinePayload taskId taskGroupId schedulerId deadline),
              s.fake.nextId, none,
              now + (secondsTo deadline now + s.deadlineDelay / 1000) * 1000,
              now + (7 * 24 * 60 * 60) * 1000⟩])
          nextId := s.fake.nextId + 1 } } from by
        unfold ensureDeadlineQueue
        rw [if_pos hdr]]
      dsimp only
      unfold svcGetMessages getMessages
      dsimp only
      rw [lookupA_setA_self s.fake.queues s.deadlineQueue _]
      dsimp only
      rw [getMessagesAux_one tp (10 * 60) 32 _ _ hvis]
      rfl
    · show jsonGet (decodeMessageText (encodeMessageText
        (deadlinePayload taskId taskGroupId schedulerId deadline))) "taskId" =
          some (.str taskId)
      rw [decodeMessageText_encode]
      rfl
    · show jsonGet (decodeMessageText (encodeMessageText
        (deadlinePayload taskId taskGroupId schedulerId deadline))) "taskGroupId" =
          some (.str taskGroupId)
      rw [decodeMessageText_encode]
      rfl
    · show jsonGet (decodeMessageText (encodeMessageText
        (deadlinePayload taskId taskGroupId schedulerId deadline))) "schedulerId" =
          some (.str schedulerId)
      rw [decodeMessageText_encode]
      rfl
    · show jsonDate (jsonGet (decodeMessageText (encodeMessageText
        (deadlinePayload taskId taskGroupId schedulerId deadline))) "deadline") =
          some deadline
      rw [decodeMessageText_encode]
      rfl

/-- C7: visibility gating of expiration messages (lines 213-228, 249-269,
729-751).  A claim message put at `now` with future `takenUntil` into the
(ready, empty) claim queue is never returned by a poll strictly before
`takenUntil`, and is returned — with its payload fields intact — by any
poll from `takenUntil + 1000` (the one-second ceil/clamp margin) up to the
7-day TTL; the deadline queue gates identically with the extra
`floor(deadlineDelay / 1000)` seconds of visibility delay. -/
theorem C7_claimVisibilityGate (s : SvcState) (taskId taskGroupId schedulerId : String)
    (runId : Nat) (takenUntil deadline now : Int)
    (htask : ¬(taskId = "")) (htg : ¬(taskGroupId = "")) (hsch : ¬(schedulerId = ""))
    (hcr : s.claimQueueReady = true) (hdr : s.deadlineQueueReady = true)
    (hcq : lookupA s.fake.queues s.claimQueue = some [])
    (hdq : lookupA s.fake.queues s.deadlineQueue = some [])
    (htu : now < takenUntil) (hdl : now < deadline) (hdd : 0 ≤ s.deadlineDelay) :
    (∃ s2, putClaimMessage s taskId runId takenUntil now = .ok s2 ∧
      (∀ tp, tp < takenUntil → pollClaimQueue s2 tp = .ok ([], s2)) ∧
      (∀ tp, takenUntil + 1000 ≤ tp → tp ≤ now + 604800000 →
        ∃ r s3, pollClaimQueue s2 tp = .ok ([r], s3) ∧
          r.taskId = some (.str taskId) ∧ r.runId = some (.num runId) ∧
          r.takenUntil = some takenUntil)) ∧
    (∃ s2, putDeadlineMessage s taskId taskGroupId schedulerId deadline now = .ok s2 ∧
      (∀ tp, tp < deadline → pollDeadlineQueue s2 tp = .ok ([], s2)) ∧
      (∀ tp, deadline + 1000 + 1000 * (s.deadlineDelay / 1000) ≤ tp →
        tp ≤ now + 604800000 →
        ∃ r s3, pollDeadlineQueue s2 tp = .ok ([r], s3) ∧
          r.taskId = some (.str taskId) ∧ r.taskGroupId = some (.str taskGroupId) ∧
          r.schedulerId = some (.str schedulerId) ∧ r.deadline = some deadline)) :=
  ⟨putClaim_gate s taskId runId takenUntil now htask hcr hcq htu,
   putDeadline_gate s taskId taskGroupId schedulerId deadline now htask htg hsch
     hdr hdq hdl hdd⟩

/-- A service state with ready, empty claim and deadline queues. -/
def c7state : SvcState :=
  { fake := ⟨[("CQ", []), ("DQ", [])], [], 0⟩
    queues := []
    countPendingCache := []
    claimQueueReady := true
    resolvedQueueReady := false
    deadlineQueueReady := true
    qnPre := "q"
    claimQueue := "CQ"
    resolvedQueue := "RQ"
    deadlineQueue := "DQ"
    deadlineDelay := 600000 }

theorem C7_witness :
    (∃ s2, putClaimMessage c7state "t" 0 5000 0 = .ok s2 ∧
      (∀ tp, tp < 5000 → pollClaimQueue s2 tp = .ok ([], s2)) ∧
      (∀ tp, (5000 : Int) + 1000 ≤ tp → tp ≤ 0 + 604800000 →
        ∃ r s3, pollClaimQueue s2 tp = .ok ([r], s3) ∧
          r.taskId = some (.str "t") ∧ r.runId = some (.num 0) ∧
          r.takenUntil = some 5000)) ∧
    (∃ s2, putDeadlineMessage c7state "t" "g" "sc" 5000 0 = .ok s2 ∧
      (∀ tp, tp < 5000 → pollDeadlineQueue s2 tp = .ok ([], s2)) ∧
      (∀ tp, (5000 : Int) + 1000 + 1000 * (c7state.deadlineDelay / 1000) ≤ tp →
        tp ≤ 0 + 604800000 →
        ∃ r s3, pollDeadlineQueue s2 tp = .ok ([r], s3) ∧
          r.taskId = some (.str "t") ∧ r.taskGroupId = some (.str "g") ∧
          r.schedulerId = some (.str "sc") ∧ r.deadline = some 5000)) :=
  C7_claimVisibilityGate c7state "t" "g" "sc" 0 5000 5000 0
    (by decide) (by decide) (by decide) rfl rfl rfl rfl
    (by decide) (by decide) (by decide)
